import Mathlib

/-!
Shallow embedding of the Arundaya Photo Extractor core
(`src/services/geminiService.ts`, `src/App.tsx`, `src/components/ResultsTable.tsx`,
`src/types.ts`) and proofs about it.

Conventions of the embedding:
* JavaScript numbers are modelled as `ℚ` (the repository only adds, compares and
  formats coordinates; no overflow or NaN behaviour is relied on by the claims).
* A JavaScript `throw` / rejected promise is modelled as `Except.error`.
* The external Gemini call is an oracle: its observable outcome (throwing,
  returning no text, returning unparsable text, returning a non-array JSON
  value, or returning a parsed JSON array) is an input `OracleOutcome` of the
  model, as is the per-file result of `FileReader` encoding.
* A parsed JSON array is not schema-checked by `JSON.parse`, so its entries are
  modelled as `RawItem` records whose every field may be absent (`none` stands
  for a missing / `null` / `undefined` field).
-/

/-- A browser `File` as far as the core uses it: a name and a MIME type
(`file.name`, `file.type`).  The binary content only ever flows into the
encoder, which the environment models, so it is not carried separately. -/
structure GFile where
  name : String
  mimeType : String
deriving DecidableEq

/-- An entry of the JSON array produced by `JSON.parse(response.text)` in
`processImageBatch`.  `JSON.parse` performs no schema validation, so every
field may be absent (`none` models a missing, `null` or `undefined` field). -/
structure RawItem where
  address : Option String
  latitude : Option ℚ
  longitude : Option ℚ
  date : Option String
  time : Option String
  foundCoordinates : Option Bool
deriving DecidableEq

/-- Observable outcome of the `ai.models.generateContent` call together with
the subsequent `response.text` / `JSON.parse` steps of `processImageBatch`:
the call throws; the response has no text; the text is not valid JSON
(`JSON.parse` throws); the text parses to a non-array value; or it parses to
an array of records. -/
inductive OracleOutcome where
  | throws
  | noText
  | parseFail
  | nonArray
  | array (items : List RawItem)
deriving DecidableEq

/-- The ambient environment of one `processImageBatch` call: whether
`process.env.API_KEY` is set, the per-file behaviour of the `FileReader`
encoding (`none` = `reader.onerror`, i.e. a rejected promise), and the
oracle outcome of the remote call. -/
structure ClientEnv where
  apiKeyPresent : Bool
  encode : GFile → Option String
  oracle : OracleOutcome

/-- The placeholder record built in the `catch` branch of
`processImageBatch` (source: `services/geminiService.ts`, lines 116-123). -/
def errorItem : RawItem :=
  { address := some "Error processing image"
    latitude := some 0
    longitude := some 0
    date := some ""
    time := some ""
    foundCoordinates := some false }

/-- The placeholder record built by the fallback when the response has no
text, cannot be parsed as an array, or parses to a non-array value
(source: `services/geminiService.ts`, lines 104-111). -/
def couldNotProcessItem : RawItem :=
  { address := some "Could not process"
    latitude := some 0
    longitude := some 0
    date := some ""
    time := some ""
    foundCoordinates := some false }

/-- `Promise.all(files.map(fileToPart))`: encodes every file, rejecting
(returning `none`) as soon as one `FileReader` errors. -/
def encodeAll (env : ClientEnv) : List GFile → Option (List String)
  | [] => some []
  | f :: fs =>
    match env.encode f, encodeAll env fs with
    | some p, some ps => some (p :: ps)
    | _, _ => none

/-- Embedding of `processImageBatch` (`services/geminiService.ts`, lines
40-125).  The steps, in source order:
1. missing `process.env.API_KEY` throws (line 41-43);
2. `await Promise.all(files.map(fileToPart))` (line 48) — this happens
   *before* the `try` block, so an encoding failure also throws;
3. inside `try`: a throwing call or a `JSON.parse` failure is caught and
   yields one `errorItem` per file (lines 113-124); a response without text
   or with a non-array parse falls through to one `couldNotProcessItem` per
   file (lines 95-111); a parsed array is returned unchanged (lines 98-100). -/
def processImageBatch (env : ClientEnv) (files : List GFile) :
    Except String (List RawItem) :=
  if env.apiKeyPresent = false then
    .error "API Key is missing. Please check your environment configuration."
  else
    match encodeAll env files with
    | none => .error "encoding error"
    | some _imageParts =>
      match env.oracle with
      | .throws => .ok (files.map fun _ => errorItem)
      | .parseFail => .ok (files.map fun _ => errorItem)
      | .noText => .ok (files.map fun _ => couldNotProcessItem)
      | .nonArray => .ok (files.map fun _ => couldNotProcessItem)
      | .array items => .ok items

/-- `BATCH_SIZE` from `App.tsx` line 8. -/
def BATCH_SIZE : ℕ := 10

/-- Fuel-driven worker for the chunking loop of `handleProcessQueue`
(`App.tsx` lines 61-64): while items remain, push `slice(i, i + BATCH_SIZE)`
and advance by `BATCH_SIZE`.  The fuel only forces termination; any fuel of
at least the list length yields the loop's chunks. -/
def chunkedGo {α : Type} : ℕ → List α → List (List α)
  | 0, _ => []
  | _, [] => []
  | fuel + 1, x :: xs =>
    (x :: xs).take BATCH_SIZE :: chunkedGo fuel ((x :: xs).drop BATCH_SIZE)

/-- The chunking step of `handleProcessQueue` (`App.tsx` lines 61-64). -/
def chunked {α : Type} (xs : List α) : List (List α) :=
  chunkedGo xs.length xs

/-- A staged queue entry (`App.tsx` lines 10-14). -/
structure QueueItem where
  file : GFile
  id : String
  preview : String
deriving DecidableEq

/-- A result-store entry (`types.ts` `ProcessedImage`).  `latitude` and
`longitude` are nullable in the source type (`number | null`), hence
`Option ℚ`; `date`/`time` are optional strings, which the orchestrator and
the export both read through `x || ""`, so they are carried as `String`
(with `""` for the absent value, on which `x || ""` is the identity). -/
structure ProcessedImage where
  originalFile : GFile
  fileName : String
  previewUrl : String
  address : String
  latitude : Option ℚ
  longitude : Option ℚ
  date : String
  time : String
deriving DecidableEq

/-- `ProcessingStatus` from `types.ts` lines 16-21. -/
inductive ProcessingStatus where
  | IDLE
  | PROCESSING
  | COMPLETED
  | ERROR
deriving DecidableEq

/-- The component state of `App` (`App.tsx` lines 17-20). -/
structure AppState where
  results : List ProcessedImage
  queue : List QueueItem
  status : ProcessingStatus
  progress : ℕ × ℕ

/-- JavaScript `o || d` for an optional string `o`: the default is taken
when the value is absent (`undefined`/`null`) or the empty string (falsy). -/
def jsOrS (o : Option String) (d : String) : String :=
  match o with
  | some s => if s = "" then d else s
  | none => d

/-- Building one `ProcessedImage` from a queue item and the (possibly
absent) record `batchResults[index]` — the body of the `chunkItems.map`
callback in `handleProcessQueue` (`App.tsx` lines 78-91).  `g = none` models
`geminiData === undefined` (an index past the end of the returned array);
`geminiData?.latitude || 0` collapses an absent or zero number to `0`,
i.e. `Option.getD 0`. -/
def mergeItem (item : QueueItem) (g : Option RawItem) : ProcessedImage :=
  { originalFile := item.file
    fileName := item.file.name
    previewUrl := item.preview
    address := jsOrS (g.bind (·.address)) "Processing Error"
    latitude := some ((g.bind (·.latitude)).getD 0)
    longitude := some ((g.bind (·.longitude)).getD 0)
    date := jsOrS (g.bind (·.date)) ""
    time := jsOrS (g.bind (·.time)) "" }

/-- Worker for `chunkItems.map((item, index) => ...)`: walks the chunk
carrying the running index used to look up `batchResults[index]`. -/
def mergeChunkGo (batchResults : List RawItem) :
    List QueueItem → ℕ → List ProcessedImage
  | [], _ => []
  | item :: rest, idx => mergeItem item batchResults[idx]? :: mergeChunkGo batchResults rest (idx + 1)

/-- `chunkItems.map((item, index) => ({...}))` from `App.tsx` lines 78-91. -/
def mergeChunk (chunkItems : List QueueItem) (batchResults : List RawItem) :
    List ProcessedImage :=
  mergeChunkGo batchResults chunkItems 0

/-- Observable state-transition events of `handleProcessQueue`, in the
order the source performs them: `setStatus`, `setProgress`,
`setResults([])`, `setQueue([])`, issuing a client call for a chunk, and
appending a chunk's merged results to the store. -/
inductive Ev where
  | setStatus (st : ProcessingStatus)
  | setProgress (processed total : ℕ)
  | resetResults
  | clearQueue
  | call (i : ℕ) (files : List GFile)
  | append (entries : List ProcessedImage)
deriving DecidableEq

/-- Output of the chunk-processing loop: its event trace, the accumulated
result entries, the final progress counter and the final status. -/
structure RunOut where
  evs : List Ev
  results : List ProcessedImage
  progress : ℕ × ℕ
  status : ProcessingStatus

/-- The `for` loop plus `try`/`catch` of `handleProcessQueue` (`App.tsx`
lines 69-106): process chunks sequentially; a chunk whose client call
throws aborts the loop with status `ERROR`, keeping the results and the
progress accumulated so far; otherwise merge positionally, append to the
store and update progress; after the last chunk set `COMPLETED`. -/
def runChunks (env : ℕ → ClientEnv) (total : ℕ) :
    List (List QueueItem) → ℕ → ℕ → List ProcessedImage → ℕ × ℕ → RunOut
  | [], _, _, acc, prog => ⟨[Ev.setStatus .COMPLETED], acc, prog, .COMPLETED⟩
  | chunk :: rest, i, processed, acc, prog =>
    let files := chunk.map (·.file)
    match processImageBatch (env i) files with
    | .error _ => ⟨[Ev.call i files, Ev.setStatus .ERROR], acc, prog, .ERROR⟩
    | .ok batchResults =>
      let mapped := mergeChunk chunk batchResults
      let pc := processed + chunk.length
      let r := runChunks env total rest (i + 1) pc (acc ++ mapped) (pc, total)
      ⟨Ev.call i files :: Ev.append mapped :: Ev.setProgress pc total :: r.evs,
       r.results, r.progress, r.status⟩

/-- Embedding of `handleProcessQueue` (`App.tsx` lines 45-107).  The
environment supplies the client behaviour for the i-th call.  Returns the
resulting component state and the trace of state transitions: an empty
queue returns immediately (line 46); otherwise the queue is snapshotted,
status/progress are set, results and queue are cleared, and the chunk loop
runs. -/
def handleProcessQueue (env : ℕ → ClientEnv) (s : AppState) :
    AppState × List Ev :=
  if s.queue.isEmpty then (s, [])
  else
    let itemsToProcess := s.queue
    let total := itemsToProcess.length
    let chunks := chunked itemsToProcess
    let r := runChunks env total chunks 0 0 [] (0, total)
    ({ results := r.results, queue := [], status := r.status, progress := r.progress },
     Ev.setStatus .PROCESSING :: Ev.setProgress 0 total ::
       Ev.resetResults :: Ev.clearQueue :: r.evs)

/-- The chunk indices for which a client request was issued, in order. -/
def callIdxs (evs : List Ev) : List ℕ :=
  evs.filterMap fun e =>
    match e with
    | .call i _ => some i
    | _ => none

/-- The sequence of `setStatus` transitions in a trace. -/
def statusEvs (evs : List Ev) : List ProcessingStatus :=
  evs.filterMap fun e =>
    match e with
    | .setStatus st => some st
    | _ => none

/-- The merged entries each chunk contributes under a given environment,
starting at call index `i` (empty for a chunk whose call throws). -/
def mergesFrom (env : ℕ → ClientEnv) : ℕ → List (List QueueItem) → List (List ProcessedImage)
  | _, [] => []
  | i, c :: cs =>
    (match processImageBatch (env i) (c.map (·.file)) with
     | .ok items => mergeChunk c items
     | .error _ => []) :: mergesFrom env (i + 1) cs

/-- Embedding of `handleRemoveFromQueue` (`App.tsx` lines 32-38): revoke
the preview of the first item with the given id (second component lists
the revoked previews) and keep every item whose id differs. -/
def handleRemoveFromQueue (id : String) (q : List QueueItem) :
    List QueueItem × List String :=
  (q.filter fun i => i.id != id,
   match q.find? (fun i => i.id == id) with
   | some item => [item.preview]
   | none => [])

/-- Embedding of `handleClearQueue` (`App.tsx` lines 40-43): revoke every
preview and empty the queue. -/
def handleClearQueue (q : List QueueItem) : List QueueItem × List String :=
  ([], q.map (·.preview))

/-- The character for a decimal digit below ten. -/
def digitToChar (d : ℕ) : Char := Char.ofNat (48 + d)

/-- The numeric value of a decimal digit character. -/
def charToDigit (c : Char) : ℕ := c.toNat - 48

/-- Fuel-driven base-10 digit rendering (most significant first); any fuel
of at least `n` renders `n` fully. -/
def natDigitsGo : ℕ → ℕ → List Char
  | _, 0 => []
  | 0, _ => []
  | fuel + 1, n + 1 => natDigitsGo fuel ((n + 1) / 10) ++ [digitToChar ((n + 1) % 10)]

/-- Decimal rendering of a natural number, `0` rendered as `"0"`. -/
def natDigits (n : ℕ) : List Char :=
  if n = 0 then ['0'] else natDigitsGo n n

/-- Decimal reading of a digit string (the left fold `acc * 10 + digit`). -/
def natFromDigits (l : List Char) : ℕ :=
  l.foldl (fun acc c => 10 * acc + charToDigit c) 0

/-- Pad a digit string to six characters with leading zeros. -/
def padLeft6 (l : List Char) : List Char :=
  List.replicate (6 - l.length) '0' ++ l

/-- Floor of a nonnegative rational, computed on its reduced fraction. -/
def floorNN (r : ℚ) : ℕ := r.num.toNat / r.den

/-- Model of JavaScript `x.toFixed(6)` for a nonnegative number: round to
six decimal places (half up) and print with exactly six fraction digits. -/
def toFixed6 (q : ℚ) : List Char :=
  let n := floorNN (q * 1000000 + 1 / 2)
  natDigits (n / 1000000) ++ '.' :: padLeft6 (natDigits (n % 1000000))

/-- Embedding of `formatCoordinate` (`ResultsTable.tsx` lines 9-24):
absent or zero values display as `"--"`; otherwise the absolute value with
six decimals, a degree sign and a hemisphere letter chosen by the sign
(`type` `'lat'`/`'lng'` becomes `isLat`). -/
def formatCoordinate (value : Option ℚ) (isLat : Bool) : List Char :=
  match value with
  | none => ['-', '-']
  | some v =>
    if v = 0 then ['-', '-']
    else
      let degrees := toFixed6 |v|
      let direction :=
        if isLat then (if 0 ≤ v then 'N' else 'S')
        else (if 0 ≤ v then 'E' else 'W')
      degrees ++ ['°', ' ', direction]

/-- Whitespace as JavaScript `String.prototype.trim` removes it (the ASCII
cases; the repository only ever produces these). -/
def isJsSpace (c : Char) : Bool :=
  c = ' ' || c = '\t' || c = '\n' || c = '\r' || c = '\x0b' || c = '\x0c'

/-- Drop leading and trailing whitespace from a character list. -/
def trimChars (l : List Char) : List Char :=
  ((l.dropWhile isJsSpace).reverse.dropWhile isJsSpace).reverse

/-- The address sanitisation of `handleCopy` (`ResultsTable.tsx` line 43):
`(item.address || '').replace(/[\t\n\r]/g, ' ').trim()`. -/
def cleanAddress (a : String) : List Char :=
  trimChars (a.data.map fun c => if c = '\t' ∨ c = '\n' ∨ c = '\r' then ' ' else c)

/-- `Array.prototype.join` with a one-character separator. -/
def joinSep (sep : Char) : List (List Char) → List Char
  | [] => []
  | [x] => x
  | x :: y :: rest => x ++ sep :: joinSep sep (y :: rest)

/-- Split a character list at every occurrence of a separator character
(always at least one piece, like `String.prototype.split`). -/
def splitSep (sep : Char) : List Char → List (List Char)
  | [] => [[]]
  | c :: cs =>
    match splitSep sep cs with
    | [] => [[]]
    | r :: rs => if c = sep then [] :: r :: rs else (c :: r) :: rs

/-- The header row of `handleCopy` (`ResultsTable.tsx` lines 39, 55):
`headers.join('\t')`. -/
def headerLine : List Char :=
  joinSep '\t' (["File Name", "Address", "Latitude", "Longitude", "Date", "Time"].map String.data)

/-- One data row of `handleCopy` (`ResultsTable.tsx` lines 40-53): format
both coordinates, sanitise the address, render `'--'` cells as empty, and
join the six cells with tabs.  `item.date || ''` and `item.time || ''` are
the identity on the `String`-valued fields of the embedding. -/
def rowLine (item : ProcessedImage) : List Char :=
  let lat := formatCoordinate item.latitude true
  let lng := formatCoordinate item.longitude false
  joinSep '\t'
    [item.fileName.data,
     cleanAddress item.address,
     if lat = ['-', '-'] then [] else lat,
     if lng = ['-', '-'] then [] else lng,
     item.date.data,
     item.time.data]

/-- The tab-separated block built by `handleCopy` (`ResultsTable.tsx` line
55): header line and one line per row, joined with newlines.  (The
component sorts the rows by file name before serialising; the serialisation
itself is this function applied to the sorted list.) -/
def handleCopyTsv (sortedData : List ProcessedImage) : List Char :=
  joinSep '\n' (headerLine :: sortedData.map rowLine)

/-- A row recovered from the exported block.  Coordinates are `none` when
the cell is empty (the export's rendering of unknown coordinates). -/
structure ParsedRow where
  fileName : List Char
  address : List Char
  latitude : Option ℚ
  longitude : Option ℚ
  date : List Char
  time : List Char
deriving DecidableEq

/-- Modelled from the spec: the repository has no TSV import, but the
round-trip property of §8 needs one; this reads a nonempty all-digit
string as a natural number. -/
def parseNatChars (l : List Char) : Option ℕ :=
  if !l.isEmpty && l.all Char.isDigit then some (natFromDigits l) else none

/-- Modelled from the spec: read an unsigned decimal numeral with an
optional fraction part. -/
def parseDecChars (l : List Char) : Option ℚ :=
  match splitSep '.' l with
  | [ip] => (parseNatChars ip).map fun n => (n : ℚ)
  | [ip, fp] =>
    match parseNatChars ip, parseNatChars fp with
    | some i, some f => some ((i : ℚ) + (f : ℚ) / (10 : ℚ) ^ fp.length)
    | _, _ => none
  | _ => none

/-- Modelled from the spec: read one coordinate cell of the export — an
empty cell is an unknown coordinate, otherwise signed decimal degrees with
a degree sign and a hemisphere letter (`S`/`W` negative). -/
def parseCoordCell (cell : List Char) : Option (Option ℚ) :=
  if cell.isEmpty then some none
  else
    match splitSep '°' cell with
    | [num, [' ', d]] =>
      match parseDecChars num with
      | some v =>
        if d = 'N' ∨ d = 'E' then some (some v)
        else if d = 'S' ∨ d = 'W' then some (some (-v))
        else none
      | none => none
    | _ => none

/-- Modelled from the spec: split one exported line into its six
tab-separated cells and read both coordinate cells. -/
def parseRowLine (l : List Char) : Option ParsedRow :=
  match splitSep '\t' l with
  | [fn, ad, la, lo, d, t] =>
    match parseCoordCell la, parseCoordCell lo with
    | some lat, some lng => some ⟨fn, ad, lat, lng, d, t⟩
    | _, _ => none
  | _ => none

/-- Read every line, failing if any line is malformed. -/
def parseAllRows : List (List Char) → Option (List ParsedRow)
  | [] => some []
  | l :: ls =>
    match parseRowLine l, parseAllRows ls with
    | some r, some rs => some (r :: rs)
    | _, _ => none

/-- Modelled from the spec: parse the exported block back — split into
lines, skip the header line, and read each data row. -/
def parseTsv (s : List Char) : Option (List ParsedRow) :=
  match splitSep '\n' s with
  | [] => none
  | _hdr :: rows => parseAllRows rows

/-- The six-decimal approximation the export applies to a nonnegative
coordinate magnitude. -/
def approx6 (x : ℚ) : ℚ := (floorNN (x * 1000000 + 1 / 2) : ℚ) / 1000000

/-- What one coordinate round-trips to: unknown stays unknown, the zero
sentinel becomes unknown, and a nonzero value keeps its sign on the
six-decimal approximation of its magnitude. -/
def roundtripCoord (v : Option ℚ) : Option ℚ :=
  match v with
  | none => none
  | some q =>
    if q = 0 then none
    else if 0 ≤ q then some (approx6 |q|) else some (-approx6 |q|)

lemma chunkedGo_nil {α : Type} (fuel : ℕ) : chunkedGo fuel ([] : List α) = [] := by
  cases fuel <;> rfl

lemma chunkedGo_congr {α : Type} :
    ∀ (f1 f2 : ℕ) (xs : List α), xs.length ≤ f1 → xs.length ≤ f2 →
      chunkedGo f1 xs = chunkedGo f2 xs := by
  intro f1
  induction f1 with
  | zero =>
    intro f2 xs h1 _h2
    have hx : xs = [] := List.eq_nil_of_length_eq_zero (Nat.le_zero.mp h1)
    subst hx
    rw [chunkedGo_nil, chunkedGo_nil]
  | succ f1 ih =>
    intro f2 xs h1 h2
    cases xs with
    | nil => rw [chunkedGo_nil, chunkedGo_nil]
    | cons x l =>
      cases f2 with
      | zero => simp at h2
      | succ f2 =>
        simp only [chunkedGo]
        congr 1
        apply ih
        · simp only [List.length_drop, List.length_cons, BATCH_SIZE] at *
          omega
        · simp only [List.length_drop, List.length_cons, BATCH_SIZE] at *
          omega

lemma chunked_cons_eq {α : Type} {xs : List α} (hx : xs ≠ []) :
    chunked xs = xs.take BATCH_SIZE :: chunked (xs.drop BATCH_SIZE) := by
  cases xs with
  | nil => exact absurd rfl hx
  | cons x l =>
    show chunkedGo (l.length + 1) (x :: l) = _
    simp only [chunkedGo]
    congr 1
    apply chunkedGo_congr
    · simp only [List.length_drop, List.length_cons, BATCH_SIZE]
      omega
    · exact le_rfl

lemma chunked_eq_nil_iff {α : Type} (xs : List α) : chunked xs = [] ↔ xs = [] := by
  constructor
  · intro h
    by_contra hx
    rw [chunked_cons_eq hx] at h
    exact List.cons_ne_nil _ _ h
  · intro h
    subst h
    rfl

lemma chunked_flatten {α : Type} (xs : List α) : (chunked xs).flatten = xs := by
  suffices h : ∀ (n : ℕ) (ys : List α), ys.length ≤ n → (chunked ys).flatten = ys from
    h xs.length xs le_rfl
  intro n
  induction n with
  | zero =>
    intro ys h
    have hy : ys = [] := List.eq_nil_of_length_eq_zero (Nat.le_zero.mp h)
    subst hy
    rfl
  | succ n ih =>
    intro ys h
    rcases eq_or_ne ys [] with hy | hy
    · subst hy; rfl
    · have hpos : 0 < ys.length := List.length_pos.mpr hy
      rw [chunked_cons_eq hy, List.flatten_cons,
        ih (ys.drop BATCH_SIZE) (by simp only [List.length_drop, BATCH_SIZE] at *; omega),
        List.take_append_drop]

lemma chunked_length_eq {α : Type} (xs : List α) :
    (chunked xs).length = (xs.length + BATCH_SIZE - 1) / BATCH_SIZE := by
  suffices h : ∀ (n : ℕ) (ys : List α), ys.length ≤ n →
      (chunked ys).length = (ys.length + BATCH_SIZE - 1) / BATCH_SIZE from
    h xs.length xs le_rfl
  intro n
  induction n with
  | zero =>
    intro ys h
    have hy : ys = [] := List.eq_nil_of_length_eq_zero (Nat.le_zero.mp h)
    subst hy
    simp [chunked, chunkedGo, BATCH_SIZE]
  | succ n ih =>
    intro ys h
    rcases eq_or_ne ys [] with hy | hy
    · subst hy; simp [chunked, chunkedGo, BATCH_SIZE]
    · have hpos : 0 < ys.length := List.length_pos.mpr hy
      rw [chunked_cons_eq hy, List.length_cons,
        ih (ys.drop BATCH_SIZE) (by simp only [List.length_drop, BATCH_SIZE] at *; omega)]
      simp only [List.length_drop, BATCH_SIZE]
      omega

lemma chunked_chunk_bounds {α : Type} (xs : List α) :
    ∀ c ∈ chunked xs, c.length ≤ BATCH_SIZE ∧ c ≠ [] := by
  suffices h : ∀ (n : ℕ) (ys : List α), ys.length ≤ n →
      ∀ c ∈ chunked ys, c.length ≤ BATCH_SIZE ∧ c ≠ [] from
    h xs.length xs le_rfl
  intro n
  induction n with
  | zero =>
    intro ys h c hc
    have hy : ys = [] := List.eq_nil_of_length_eq_zero (Nat.le_zero.mp h)
    subst hy
    simp [chunked, chunkedGo_nil] at hc
  | succ n ih =>
    intro ys h c hc
    rcases eq_or_ne ys [] with hy | hy
    · subst hy; simp [chunked, chunkedGo_nil] at hc
    · have hpos : 0 < ys.length := List.length_pos.mpr hy
      rw [chunked_cons_eq hy, List.mem_cons] at hc
      rcases hc with hc | hc
      · subst hc
        constructor
        · simp [List.length_take]
        · intro hceq
          rcases List.take_eq_nil_iff.mp hceq with h0 | h0
          · simp [BATCH_SIZE] at h0
          · exact hy h0
      · exact ih (ys.drop BATCH_SIZE)
          (by simp only [List.length_drop, BATCH_SIZE] at *; omega) c hc

lemma chunked_front_full {α : Type} (xs : List α) :
    ∀ c ∈ (chunked xs).dropLast, c.length = BATCH_SIZE := by
  suffices h : ∀ (n : ℕ) (ys : List α), ys.length ≤ n →
      ∀ c ∈ (chunked ys).dropLast, c.length = BATCH_SIZE from
    h xs.length xs le_rfl
  intro n
  induction n with
  | zero =>
    intro ys h c hc
    have hy : ys = [] := List.eq_nil_of_length_eq_zero (Nat.le_zero.mp h)
    subst hy
    simp [chunked, chunkedGo_nil] at hc
  | succ n ih =>
    intro ys h c hc
    rcases eq_or_ne ys [] with hy | hy
    · subst hy; simp [chunked, chunkedGo_nil] at hc
    · have hpos : 0 < ys.length := List.length_pos.mpr hy
      rw [chunked_cons_eq hy] at hc
      rcases hrest : chunked (ys.drop BATCH_SIZE) with _ | ⟨r0, rs⟩
      · rw [hrest] at hc
        simp at hc
      · rw [hrest] at hc
        simp only [List.dropLast_cons₂, List.mem_cons] at hc
        rcases hc with hc | hc
        · subst hc
          have hdrop : ys.drop BATCH_SIZE ≠ [] := by
            intro hd
            rw [hd] at hrest
            exact List.cons_ne_nil _ _ hrest.symm
          have : BATCH_SIZE < ys.length := by
            by_contra hle
            push_neg at hle
            exact hdrop (List.drop_eq_nil_of_le hle)
          simp only [List.length_take]
          omega
        · have := ih (ys.drop BATCH_SIZE)
            (by simp only [List.length_drop, BATCH_SIZE] at *; omega) c
          rw [hrest] at this
          exact this hc

/-- C3: the chunking step of `handleProcessQueue` splits any ordered queue
of `N` items into `⌈N / BATCH_SIZE⌉` contiguous order-preserving slices
(zero slices for the empty queue), each nonempty of size at most
`BATCH_SIZE`, with every slice but possibly the last of size exactly
`BATCH_SIZE`, and their concatenation is the original queue. -/
theorem chunking_planner_correct {α : Type} (xs : List α) :
    (chunked xs).length = (xs.length + BATCH_SIZE - 1) / BATCH_SIZE ∧
    (chunked xs).flatten = xs ∧
    (∀ c ∈ chunked xs, c.length ≤ BATCH_SIZE ∧ c ≠ []) ∧
    (∀ c ∈ (chunked xs).dropLast, c.length = BATCH_SIZE) :=
  ⟨chunked_length_eq xs, chunked_flatten xs, chunked_chunk_bounds xs,
   chunked_front_full xs⟩

/-- Witness for C3 at a queue of 12 items: 2 chunks that concatenate back,
the non-final chunk full. -/
theorem chunking_planner_correct_witness :
    (chunked (List.range 12)).length = 2
    ∧ (chunked (List.range 12)).flatten = List.range 12
    ∧ ((List.range 12).take 10).length = BATCH_SIZE := by
  have h := chunking_planner_correct (List.range 12)
  refine ⟨?_, h.2.1, ?_⟩
  · rw [h.1]; decide
  · exact h.2.2.2 _ (by decide)

/-- C1 (code bug): `processImageBatch` returns a parsed JSON array
unchanged, even when its length differs from the number of input files —
contradicting the comment above the `return` ("Ensure we return an array
of the same length, filling gaps if necessary") and the spec's invariant.
Evaluated here: two input files, an oracle response that is a well-formed
array of length one, and the client returns one record, not two. -/
theorem processImageBatch_wrong_length_bug :
    processImageBatch
        { apiKeyPresent := true
          encode := fun _ => some "ZGF0YQ=="
          oracle := .array [{ address := some "Somewhere", latitude := some 1,
                              longitude := some 2, date := some "", time := some "",
                              foundCoordinates := some true }] }
        [⟨"a.jpg", "image/jpeg"⟩, ⟨"b.jpg", "image/jpeg"⟩]
      = .ok [{ address := some "Somewhere", latitude := some 1,
               longitude := some 2, date := some "", time := some "",
               foundCoordinates := some true }]
    ∧ ([{ address := some "Somewhere", latitude := some 1,
          longitude := some 2, date := some "", time := some "",
          foundCoordinates := some true }] : List RawItem).length
        ≠ ([⟨"a.jpg", "image/jpeg"⟩, ⟨"b.jpg", "image/jpeg"⟩] : List GFile).length :=
  ⟨rfl, by decide⟩

/-- C2 counterexample: an encoding failure happens before the `try` block
of `processImageBatch`, so it propagates as a thrown error instead of
producing placeholder records (the claim allows only the missing
credential to throw). -/
theorem processImageBatch_encoding_failure_throws :
    processImageBatch
        { apiKeyPresent := true, encode := fun _ => none, oracle := .array [] }
        [⟨"a.jpg", "image/jpeg"⟩]
      = .error "encoding error" := rfl

/-- C2 amended: once the credential is present and every file encodes,
failures of the remote call, of response parsing and of schema validation
never propagate — the client returns exactly one placeholder record per
requested image, preserving order and count; but an image-encoding
failure, like a missing credential, does throw. -/
theorem processImageBatch_total_after_encoding (env : ClientEnv) (files : List GFile)
    (hkey : env.apiKeyPresent = true) (henc : (encodeAll env files).isSome = true) :
    ((env.oracle = .throws ∨ env.oracle = .parseFail) →
        processImageBatch env files = .ok (files.map fun _ => errorItem))
    ∧ ((env.oracle = .noText ∨ env.oracle = .nonArray) →
        processImageBatch env files = .ok (files.map fun _ => couldNotProcessItem))
    ∧ (files.map fun _ => errorItem).length = files.length
    ∧ (files.map fun _ => couldNotProcessItem).length = files.length
    ∧ ∀ env2 : ClientEnv, ∀ files2 : List GFile, env2.apiKeyPresent = true →
        encodeAll env2 files2 = none →
        processImageBatch env2 files2 = .error "encoding error" := by
  obtain ⟨ps, hps⟩ := Option.isSome_iff_exists.mp henc
  refine ⟨?_, ?_, List.length_map _ _, List.length_map _ _, ?_⟩
  · rintro (h | h) <;> simp [processImageBatch, hkey, hps, h]
  · rintro (h | h) <;> simp [processImageBatch, hkey, hps, h]
  · intro env2 files2 hkey2 henc2
    simp [processImageBatch, hkey2, henc2]

/-- Witness for C2's amended theorem: one file, an always-throwing oracle,
and the result is the placeholder list of matching length. -/
theorem processImageBatch_total_after_encoding_witness :
    processImageBatch { apiKeyPresent := true, encode := fun _ => some "ZA==", oracle := .throws }
        [⟨"a.jpg", "image/jpeg"⟩]
      = .ok ([(⟨"a.jpg", "image/jpeg"⟩ : GFile)].map fun _ => errorItem) :=
  (processImageBatch_total_after_encoding
    { apiKeyPresent := true, encode := fun _ => some "ZA==", oracle := .throws }
    [⟨"a.jpg", "image/jpeg"⟩] rfl (by decide)).1 (Or.inl rfl)

/-- C6: a client whose oracle call always throws (credential present,
images encode) returns, for every image, the error placeholder record with
address `"Error processing image"`, zero coordinates, `foundCoordinates`
false and empty date and time. -/
theorem client_always_fails_placeholders (env : ClientEnv) (files : List GFile)
    (hkey : env.apiKeyPresent = true) (henc : (encodeAll env files).isSome = true)
    (horacle : env.oracle = .throws) (_hne : files ≠ []) :
    processImageBatch env files = .ok (files.map fun _ => errorItem)
    ∧ (files.map fun _ => errorItem).length = files.length
    ∧ ∀ r0 ∈ files.map fun _ => errorItem,
        r0.address = some "Error processing image" ∧ r0.latitude = some 0
        ∧ r0.longitude = some 0 ∧ r0.foundCoordinates = some false
        ∧ r0.date = some "" ∧ r0.time = some "" := by
  obtain ⟨ps, hps⟩ := Option.isSome_iff_exists.mp henc
  refine ⟨by simp [processImageBatch, hkey, hps, horacle], List.length_map _ _, ?_⟩
  intro r0 hr
  rw [List.mem_map] at hr
  obtain ⟨f, _, rfl⟩ := hr
  exact ⟨rfl, rfl, rfl, rfl, rfl, rfl⟩

/-- Witness for C6 at a concrete two-image batch. -/
theorem client_always_fails_placeholders_witness :
    processImageBatch { apiKeyPresent := true, encode := fun _ => some "ZA==", oracle := .throws }
        [⟨"a.jpg", "image/jpeg"⟩, ⟨"b.png", "image/png"⟩]
      = .ok ([(⟨"a.jpg", "image/jpeg"⟩ : GFile), ⟨"b.png", "image/png"⟩].map fun _ => errorItem)
    ∧ errorItem.address = some "Error processing image" := by
  have h := client_always_fails_placeholders
    { apiKeyPresent := true, encode := fun _ => some "ZA==", oracle := .throws }
    [⟨"a.jpg", "image/jpeg"⟩, ⟨"b.png", "image/png"⟩] rfl (by decide) rfl (by decide)
  exact ⟨h.1, (h.2.2 errorItem (by decide)).1⟩

lemma find?_append_of_forall_false {α : Type} (p : α → Bool) (l1 l2 : List α)
    (h : ∀ a ∈ l1, p a = false) : (l1 ++ l2).find? p = l2.find? p := by
  induction l1 with
  | nil => rfl
  | cons a l ih =>
    have hpa : p a = false := h a (List.mem_cons_self a l)
    simp only [List.cons_append, List.find?, hpa]
    exact ih fun b hb => h b (List.mem_cons_of_mem a hb)

/-- C8: on a queue with pairwise-distinct ids, removing a present id
deletes exactly that item (everything else unchanged, in order) and
revokes exactly its one preview; clearing the queue empties it and revokes
exactly one preview per queued item. -/
theorem remove_and_clear_queue_correct (id : String) (l r : List QueueItem)
    (x : QueueItem) (hx : x.id = id) (hnd : ((l ++ x :: r).map (·.id)).Nodup) :
    handleRemoveFromQueue id (l ++ x :: r) = (l ++ r, [x.preview])
    ∧ (handleRemoveFromQueue id (l ++ x :: r)).2.length = 1
    ∧ ∀ q : List QueueItem,
        handleClearQueue q = ([], q.map (·.preview))
        ∧ (q.map (·.preview)).length = q.length := by
  rw [List.map_append] at hnd
  obtain ⟨h1, h2, hdisj⟩ := List.nodup_append.mp hnd
  have hl : ∀ y ∈ l, y.id ≠ id := by
    intro y hy heq
    exact List.disjoint_left.mp hdisj (List.mem_map_of_mem _ hy)
      (by simp [List.mem_map]; exact Or.inl (heq.trans hx.symm))
  have hr : ∀ y ∈ r, y.id ≠ id := by
    intro y hy heq
    have hx2 : x.id ∉ r.map (·.id) := (List.nodup_cons.mp (by simpa using h2)).1
    have hy2 : y.id ∈ r.map (·.id) := List.mem_map_of_mem _ hy
    rw [heq, ← hx] at hy2
    exact hx2 hy2
  have hfind : (l ++ x :: r).find? (fun i => i.id == id) = some x := by
    rw [find?_append_of_forall_false _ l _
      (fun a ha => beq_eq_false_iff_ne.mpr (hl a ha))]
    simp [List.find?, hx]
  have hfilter : (l ++ x :: r).filter (fun i => i.id != id) = l ++ r := by
    rw [List.filter_append]
    congr 1
    · exact List.filter_eq_self.mpr fun a ha => bne_iff_ne.mpr (hl a ha)
    · rw [List.filter_cons_of_neg (by simp [hx]),
        List.filter_eq_self.mpr fun a ha => bne_iff_ne.mpr (hr a ha)]
  refine ⟨?_, ?_, fun q => ⟨rfl, List.length_map _ _⟩⟩
  · simp only [handleRemoveFromQueue, hfind, hfilter]
  · simp only [handleRemoveFromQueue, hfind]
    rfl

/-- Witness for C8: removing the middle of three distinct-id items keeps
the other two and revokes one preview. -/
theorem remove_and_clear_queue_correct_witness :
    handleRemoveFromQueue "id2"
        [⟨⟨"a", "t"⟩, "id1", "p1"⟩, ⟨⟨"b", "t"⟩, "id2", "p2"⟩, ⟨⟨"c", "t"⟩, "id3", "p3"⟩]
      = ([⟨⟨"a", "t"⟩, "id1", "p1"⟩, ⟨⟨"c", "t"⟩, "id3", "p3"⟩], ["p2"])
    ∧ handleClearQueue [⟨⟨"a", "t"⟩, "id1", "p1"⟩, ⟨⟨"b", "t"⟩, "id2", "p2"⟩]
        = ([], ["p1", "p2"]) := by
  have h := remove_and_clear_queue_correct "id2"
    [⟨⟨"a", "t"⟩, "id1", "p1"⟩] [⟨⟨"c", "t"⟩, "id3", "p3"⟩]
    ⟨⟨"b", "t"⟩, "id2", "p2"⟩ rfl (by decide)
  exact ⟨h.1, (h.2.2 _).1⟩

lemma mergeChunkGo_length (rs : List RawItem) :
    ∀ (items : List QueueItem) (idx : ℕ),
      (mergeChunkGo rs items idx).length = items.length := by
  intro items
  induction items with
  | nil => intro idx; rfl
  | cons a l ih => intro idx; simp [mergeChunkGo, ih]

lemma mergeChunk_length (c : List QueueItem) (rs : List RawItem) :
    (mergeChunk c rs).length = c.length :=
  mergeChunkGo_length rs c 0

lemma mem_mergeChunkGo (rs : List RawItem) :
    ∀ (items : List QueueItem) (idx : ℕ) (p : ProcessedImage),
      p ∈ mergeChunkGo rs items idx → ∃ item ∈ items, ∃ g, p = mergeItem item g := by
  intro items
  induction items with
  | nil => intro idx p hp; simp [mergeChunkGo] at hp
  | cons a l ih =>
    intro idx p hp
    simp only [mergeChunkGo, List.mem_cons] at hp
    rcases hp with hp | hp
    · exact ⟨a, List.mem_cons_self a l, rs[idx]?, hp⟩
    · obtain ⟨item, hitem, g, hg⟩ := ih (idx + 1) p hp
      exact ⟨item, List.mem_cons_of_mem a hitem, g, hg⟩

lemma mem_mergeChunk (c : List QueueItem) (rs : List RawItem) (p : ProcessedImage)
    (hp : p ∈ mergeChunk c rs) : ∃ item ∈ c, ∃ g, p = mergeItem item g :=
  mem_mergeChunkGo rs c 0 p hp

lemma mergeItem_wellformed (item : QueueItem) (g : Option RawItem) :
    (mergeItem item g).latitude.isSome = true
    ∧ (mergeItem item g).longitude.isSome = true
    ∧ (mergeItem item g).address ≠ "" := by
  refine ⟨rfl, rfl, ?_⟩
  show jsOrS (g.bind (·.address)) "Processing Error" ≠ ""
  cases ho : g.bind (·.address) with
  | none => simp [jsOrS]
  | some s => by_cases hs : s = "" <;> simp [jsOrS, hs]

lemma callIdxs_cons_call (i : ℕ) (fs : List GFile) (rest : List Ev) :
    callIdxs (Ev.call i fs :: rest) = i :: callIdxs rest := by
  simp [callIdxs, List.filterMap_cons]

lemma callIdxs_cons_other (e : Ev) (rest : List Ev)
    (he : ∀ i fs, e ≠ Ev.call i fs) :
    callIdxs (e :: rest) = callIdxs rest := by
  cases e with
  | call i fs => exact absurd rfl (he i fs)
  | _ => simp [callIdxs, List.filterMap_cons]

lemma statusEvs_cons_status (st : ProcessingStatus) (rest : List Ev) :
    statusEvs (Ev.setStatus st :: rest) = st :: statusEvs rest := by
  simp [statusEvs, List.filterMap_cons]

lemma statusEvs_cons_other (e : Ev) (rest : List Ev)
    (he : ∀ st, e ≠ Ev.setStatus st) :
    statusEvs (e :: rest) = statusEvs rest := by
  cases e with
  | setStatus st => exact absurd rfl (he st)
  | _ => simp [statusEvs, List.filterMap_cons]

lemma runChunks_abort (env : ℕ → ClientEnv) (total : ℕ) :
    ∀ (chunks : List (List QueueItem)) (k i pc : ℕ) (acc : List ProcessedImage)
      (prog : ℕ × ℕ),
      k < chunks.length →
      (∀ j c, j < k → chunks[j]? = some c →
        (processImageBatch (env (i + j)) (c.map (·.file))).isOk = true) →
      (∀ c, chunks[k]? = some c →
        (processImageBatch (env (i + k)) (c.map (·.file))).isOk = false) →
      (runChunks env total chunks i pc acc prog).status = .ERROR
      ∧ (runChunks env total chunks i pc acc prog).results
          = acc ++ (mergesFrom env i (chunks.take k)).flatten
      ∧ callIdxs (runChunks env total chunks i pc acc prog).evs = List.range' i (k + 1)
      ∧ statusEvs (runChunks env total chunks i pc acc prog).evs = [.ERROR] := by
  intro chunks
  induction chunks with
  | nil =>
    intro k i pc acc prog hk
    simp at hk
  | cons c cs ih =>
    intro k i pc acc prog hk hok herr
    cases k with
    | zero =>
      have he := herr c (by simp)
      rw [Nat.add_zero] at he
      cases hpe : processImageBatch (env i) (c.map (·.file)) with
      | ok items => rw [hpe] at he; simp [Except.isOk, Except.toBool] at he
      | error e =>
        refine ⟨?_, ?_, ?_, ?_⟩
        · simp [runChunks, hpe]
        · simp [runChunks, hpe, mergesFrom]
        · simp [runChunks, hpe, callIdxs_cons_call, callIdxs_cons_other, callIdxs]
        · simp [runChunks, hpe, statusEvs_cons_status, statusEvs_cons_other, statusEvs]
    | succ k =>
      have h0 := hok 0 c (Nat.succ_pos k) (by simp)
      rw [Nat.add_zero] at h0
      cases hpe : processImageBatch (env i) (c.map (·.file)) with
      | error e => rw [hpe] at h0; simp [Except.isOk, Except.toBool] at h0
      | ok items =>
        have hok2 : ∀ j c2, j < k → cs[j]? = some c2 →
            (processImageBatch (env (i + 1 + j)) (c2.map (·.file))).isOk = true := by
          intro j c2 hj hc2
          have := hok (j + 1) c2 (by omega) (by simpa using hc2)
          rwa [show i + (j + 1) = i + 1 + j by omega] at this
        have herr2 : ∀ c2, cs[k]? = some c2 →
            (processImageBatch (env (i + 1 + k)) (c2.map (·.file))).isOk = false := by
          intro c2 hc2
          have := herr c2 (by simpa using hc2)
          rwa [show i + (k + 1) = i + 1 + k by omega] at this
        obtain ⟨ihst, ihres, ihcall, ihstat⟩ :=
          ih k (i + 1) (pc + c.length) (acc ++ mergeChunk c items)
            ((pc + c.length, total)) (by simpa using hk) hok2 herr2
        refine ⟨?_, ?_, ?_, ?_⟩
        · simpa [runChunks, hpe] using ihst
        · rw [show (runChunks env total (c :: cs) i pc acc prog).results
              = (runChunks env total cs (i + 1) (pc + c.length)
                  (acc ++ mergeChunk c items) ((pc + c.length, total))).results
            from by simp [runChunks, hpe], ihres]
          simp [mergesFrom, hpe, List.flatten_cons, List.take_succ_cons]
        · rw [show (runChunks env total (c :: cs) i pc acc prog).evs
              = Ev.call i (c.map (·.file)) :: Ev.append (mergeChunk c items) ::
                Ev.setProgress (pc + c.length) total ::
                (runChunks env total cs (i + 1) (pc + c.length)
                  (acc ++ mergeChunk c items) ((pc + c.length, total))).evs
            from by simp [runChunks, hpe]]
          rw [callIdxs_cons_call,
            callIdxs_cons_other _ _ (by intro a b h; cases h),
            callIdxs_cons_other _ _ (by intro a b h; cases h), ihcall]
          simp [List.range'_succ]
        · rw [show (runChunks env total (c :: cs) i pc acc prog).evs
              = Ev.call i (c.map (·.file)) :: Ev.append (mergeChunk c items) ::
                Ev.setProgress (pc + c.length) total ::
                (runChunks env total cs (i + 1) (pc + c.length)
                  (acc ++ mergeChunk c items) ((pc + c.length, total))).evs
            from by simp [runChunks, hpe]]
          rw [statusEvs_cons_other _ _ (by intro a h; cases h),
            statusEvs_cons_other _ _ (by intro a h; cases h),
            statusEvs_cons_other _ _ (by intro a h; cases h), ihstat]

lemma mem_runChunks_results (env : ℕ → ClientEnv) (total : ℕ) :
    ∀ (chunks : List (List QueueItem)) (i pc : ℕ) (acc : List ProcessedImage)
      (prog : ℕ × ℕ) (p : ProcessedImage),
      p ∈ (runChunks env total chunks i pc acc prog).results →
      p ∈ acc ∨ ∃ c ∈ chunks, ∃ item ∈ c, ∃ g, p = mergeItem item g := by
  intro chunks
  induction chunks with
  | nil =>
    intro i pc acc prog p hp
    left
    simpa [runChunks] using hp
  | cons c cs ih =>
    intro i pc acc prog p hp
    cases hpe : processImageBatch (env i) (c.map (·.file)) with
    | error e =>
      left
      simpa [runChunks, hpe] using hp
    | ok items =>
      rw [show (runChunks env total (c :: cs) i pc acc prog).results
          = (runChunks env total cs (i + 1) (pc + c.length)
              (acc ++ mergeChunk c items) ((pc + c.length, total))).results
        from by simp [runChunks, hpe]] at hp
      rcases ih (i + 1) (pc + c.length) (acc ++ mergeChunk c items)
          ((pc + c.length, total)) p hp with h | ⟨c2, hc2, item, hitem, g, hg⟩
      · rcases List.mem_append.mp h with h | h
        · exact Or.inl h
        · obtain ⟨item, hitem, g, hg⟩ := mem_mergeChunk c items p h
          exact Or.inr ⟨c, List.mem_cons_self c cs, item, hitem, g, hg⟩
      · exact Or.inr ⟨c2, List.mem_cons_of_mem c hc2, item, hitem, g, hg⟩

lemma append_ev_runChunks (env : ℕ → ClientEnv) (total : ℕ) :
    ∀ (chunks : List (List QueueItem)) (i pc : ℕ) (acc : List ProcessedImage)
      (prog : ℕ × ℕ) (rs : List ProcessedImage),
      Ev.append rs ∈ (runChunks env total chunks i pc acc prog).evs →
      ∃ c items, c ∈ chunks ∧ rs = mergeChunk c items := by
  intro chunks
  induction chunks with
  | nil =>
    intro i pc acc prog rs hp
    simp [runChunks] at hp
  | cons c cs ih =>
    intro i pc acc prog rs hp
    cases hpe : processImageBatch (env i) (c.map (·.file)) with
    | error e =>
      simp [runChunks, hpe] at hp
    | ok items =>
      rw [show (runChunks env total (c :: cs) i pc acc prog).evs
          = Ev.call i (c.map (·.file)) :: Ev.append (mergeChunk c items) ::
            Ev.setProgress (pc + c.length) total ::
            (runChunks env total cs (i + 1) (pc + c.length)
              (acc ++ mergeChunk c items) ((pc + c.length, total))).evs
        from by simp [runChunks, hpe]] at hp
      simp only [List.mem_cons] at hp
      rcases hp with hp | hp | hp | hp
      · cases hp
      · injection hp with h
        exact ⟨c, items, List.mem_cons_self c cs, h⟩
      · cases hp
      · obtain ⟨c2, items2, hc2, hrs⟩ := ih (i + 1) (pc + c.length)
          (acc ++ mergeChunk c items) ((pc + c.length, total)) rs hp
        exact ⟨c2, items2, List.mem_cons_of_mem c hc2, hrs⟩

lemma encodeAll_total (env : ClientEnv) (henc : ∀ f, (env.encode f).isSome = true) :
    ∀ files : List GFile, (encodeAll env files).isSome = true := by
  intro files
  induction files with
  | nil => rfl
  | cons f fs ih =>
    obtain ⟨p, hp⟩ := Option.isSome_iff_exists.mp (henc f)
    obtain ⟨ps, hps⟩ := Option.isSome_iff_exists.mp ih
    simp [encodeAll, hp, hps]

lemma processImageBatch_ok_of (env : ClientEnv) (files : List GFile)
    (hkey : env.apiKeyPresent = true) (henc : (encodeAll env files).isSome = true) :
    (processImageBatch env files).isOk = true := by
  obtain ⟨ps, hps⟩ := Option.isSome_iff_exists.mp henc
  cases ho : env.oracle <;>
    simp [processImageBatch, hkey, hps, ho, Except.isOk, Except.toBool]

lemma handleProcessQueue_eq (env : ℕ → ClientEnv) (s : AppState) (hq : s.queue ≠ []) :
    handleProcessQueue env s
      = ({ results := (runChunks env s.queue.length (chunked s.queue) 0 0 []
                        (0, s.queue.length)).results,
           queue := [],
           status := (runChunks env s.queue.length (chunked s.queue) 0 0 []
                        (0, s.queue.length)).status,
           progress := (runChunks env s.queue.length (chunked s.queue) 0 0 []
                        (0, s.queue.length)).progress },
         Ev.setStatus .PROCESSING :: Ev.setProgress 0 s.queue.length ::
           Ev.resetResults :: Ev.clearQueue ::
           (runChunks env s.queue.length (chunked s.queue) 0 0 []
             (0, s.queue.length)).evs) := by
  have hie : s.queue.isEmpty = false := by
    cases hqq : s.queue with
    | nil => exact absurd hqq hq
    | cons a l => rfl
  simp [handleProcessQueue, hie]

/-- C5: if the client call for chunk `k` fails while all earlier chunk
calls succeed, the orchestrator issues no request beyond chunk `k`, the
status transitions `PROCESSING` → `ERROR` (and nothing else), and the
result store holds exactly the merged entries of the earlier chunks, not
rolled back.  Moreover a missing credential makes `processImageBatch`
throw before consulting the oracle, so a run whose first call lacks the
credential ends in `ERROR` with zero accumulated results after a single
issued request. -/
theorem orchestrator_abort_on_error (env : ℕ → ClientEnv) (s : AppState) (k : ℕ)
    (hk : k < (chunked s.queue).length)
    (hok : ∀ j c, j < k → (chunked s.queue)[j]? = some c →
      (processImageBatch (env j) (c.map (·.file))).isOk = true)
    (herr : ∀ c, (chunked s.queue)[k]? = some c →
      (processImageBatch (env k) (c.map (·.file))).isOk = false) :
    ((handleProcessQueue env s).1.status = .ERROR
     ∧ (handleProcessQueue env s).1.results
         = (mergesFrom env 0 ((chunked s.queue).take k)).flatten
     ∧ callIdxs (handleProcessQueue env s).2 = List.range (k + 1)
     ∧ statusEvs (handleProcessQueue env s).2 = [.PROCESSING, .ERROR])
    ∧ (∀ (env2 : ClientEnv) (files : List GFile), env2.apiKeyPresent = false →
        processImageBatch env2 files
          = .error "API Key is missing. Please check your environment configuration.")
    ∧ (∀ env3 : ℕ → ClientEnv, (env3 0).apiKeyPresent = false →
        (handleProcessQueue env3 s).1.status = .ERROR
        ∧ (handleProcessQueue env3 s).1.results = []
        ∧ callIdxs (handleProcessQueue env3 s).2 = [0]) := by
  have hq : s.queue ≠ [] := by
    intro h
    rw [h] at hk
    simp [chunked, chunkedGo] at hk
  have hok0 : ∀ j c, j < k → (chunked s.queue)[j]? = some c →
      (processImageBatch (env (0 + j)) (c.map (·.file))).isOk = true := by
    intro j c hj hc
    rw [Nat.zero_add]
    exact hok j c hj hc
  have herr0 : ∀ c, (chunked s.queue)[k]? = some c →
      (processImageBatch (env (0 + k)) (c.map (·.file))).isOk = false := by
    intro c hc
    rw [Nat.zero_add]
    exact herr c hc
  obtain ⟨hst, hres, hcall, hstat⟩ :=
    runChunks_abort env s.queue.length (chunked s.queue) k 0 0 []
      (0, s.queue.length) hk hok0 herr0
  have hk0 : 0 < (chunked s.queue).length := Nat.lt_of_le_of_lt (Nat.zero_le k) hk
  refine ⟨⟨?_, ?_, ?_, ?_⟩, ?_, ?_⟩
  · rw [handleProcessQueue_eq env s hq]
    exact hst
  · rw [handleProcessQueue_eq env s hq]
    simpa using hres
  · rw [handleProcessQueue_eq env s hq]
    rw [callIdxs_cons_other _ _ (by intro a b h; cases h),
      callIdxs_cons_other _ _ (by intro a b h; cases h),
      callIdxs_cons_other _ _ (by intro a b h; cases h),
      callIdxs_cons_other _ _ (by intro a b h; cases h), hcall,
      List.range_eq_range']
  · rw [handleProcessQueue_eq env s hq]
    rw [statusEvs_cons_status,
      statusEvs_cons_other _ _ (by intro a h; cases h),
      statusEvs_cons_other _ _ (by intro a h; cases h),
      statusEvs_cons_other _ _ (by intro a h; cases h), hstat]
  · intro env2 files h
    simp [processImageBatch, h]
  · intro env3 hkey
    have herr3 : ∀ c, (chunked s.queue)[0]? = some c →
        (processImageBatch (env3 (0 + 0)) (c.map (·.file))).isOk = false := by
      intro c _
      simp [processImageBatch, hkey, Except.isOk, Except.toBool]
    obtain ⟨h1, h2, h3, _h4⟩ :=
      runChunks_abort env3 s.queue.length (chunked s.queue) 0 0 0 []
        (0, s.queue.length) hk0 (by intro j c hj; omega) herr3
    refine ⟨?_, ?_, ?_⟩
    · rw [handleProcessQueue_eq env3 s hq]
      exact h1
    · rw [handleProcessQueue_eq env3 s hq]
      simpa using h2
    · rw [handleProcessQueue_eq env3 s hq]
      rw [callIdxs_cons_other _ _ (by intro a b h; cases h),
        callIdxs_cons_other _ _ (by intro a b h; cases h),
        callIdxs_cons_other _ _ (by intro a b h; cases h),
        callIdxs_cons_other _ _ (by intro a b h; cases h), h3]
      rfl

/-- Witness for C5: a 12-item queue (2 chunks); the first call succeeds,
the second lacks the credential and fails; the run ends in `ERROR` with
only chunk 1's merged entries and calls issued for chunks 0 and 1 only. -/
theorem orchestrator_abort_on_error_witness :
    (handleProcessQueue
        (fun i => if i = 0 then
            { apiKeyPresent := true, encode := fun _ => some "ZA==",
              oracle := .array [] }
          else
            { apiKeyPresent := false, encode := fun _ => some "ZA==",
              oracle := .array [] })
        { results := [], queue := List.replicate 12 ⟨⟨"f.jpg", "image/jpeg"⟩, "id", "p"⟩,
          status := .IDLE, progress := (0, 0) }).1.status = .ERROR
    ∧ callIdxs (handleProcessQueue
        (fun i => if i = 0 then
            { apiKeyPresent := true, encode := fun _ => some "ZA==",
              oracle := .array [] }
          else
            { apiKeyPresent := false, encode := fun _ => some "ZA==",
              oracle := .array [] })
        { results := [], queue := List.replicate 12 ⟨⟨"f.jpg", "image/jpeg"⟩, "id", "p"⟩,
          status := .IDLE, progress := (0, 0) }).2 = List.range 2 := by
  have h := orchestrator_abort_on_error
    (fun i => if i = 0 then
        { apiKeyPresent := true, encode := fun _ => some "ZA==",
          oracle := .array [] }
      else
        { apiKeyPresent := false, encode := fun _ => some "ZA==",
          oracle := .array [] })
    { results := [], queue := List.replicate 12 ⟨⟨"f.jpg", "image/jpeg"⟩, "id", "p"⟩,
      status := .IDLE, progress := (0, 0) }
    1 (by decide)
    (by
      intro j c hj hc
      interval_cases j
      exact processImageBatch_ok_of _ _ rfl (encodeAll_total _ (by intro f; rfl) _))
    (by
      intro c hc
      simp [processImageBatch, Except.isOk, Except.toBool])
  exact ⟨h.1.1, h.1.2.2.1⟩

/-- C9 (implicit): starting a run on a nonempty queue first sets status and
progress and then empties the result store and the staged queue before any
chunk request; the final results are independent of whatever the store held
before the run; and every stored entry is merged from an item of the run's
snapshot of the queue. -/
theorem run_start_resets_store (env : ℕ → ClientEnv) (s : AppState)
    (hq : s.queue ≠ []) :
    (∃ rest, (handleProcessQueue env s).2
        = Ev.setStatus .PROCESSING :: Ev.setProgress 0 s.queue.length ::
          Ev.resetResults :: Ev.clearQueue :: rest)
    ∧ (∀ R : List ProcessedImage,
        (handleProcessQueue env { s with results := R }).1.results
          = (handleProcessQueue env s).1.results)
    ∧ (∀ p ∈ (handleProcessQueue env s).1.results,
        ∃ item ∈ s.queue, ∃ g : Option RawItem, p = mergeItem item g)
    ∧ (handleProcessQueue env s).1.queue = [] := by
  refine ⟨⟨_, by rw [handleProcessQueue_eq env s hq]⟩, ?_, ?_, ?_⟩
  · intro R
    rw [handleProcessQueue_eq env s hq,
      handleProcessQueue_eq env { s with results := R } hq]
  · intro p hp
    rw [handleProcessQueue_eq env s hq] at hp
    rcases mem_runChunks_results env s.queue.length (chunked s.queue) 0 0 []
        (0, s.queue.length) p hp with h | ⟨c, hc, item, hitem, g, hg⟩
    · simp at h
    · have : item ∈ (chunked s.queue).flatten := List.mem_flatten.mpr ⟨c, hc, hitem⟩
      rw [chunked_flatten] at this
      exact ⟨item, this, g, hg⟩
  · rw [handleProcessQueue_eq env s hq]

/-- Witness for C9 on a one-item queue: the trace starts with the
status/progress/reset/clear prelude and the queue component ends empty. -/
theorem run_start_resets_store_witness :
    (∃ rest, (handleProcessQueue
        (fun _ => { apiKeyPresent := true, encode := fun _ => some "ZA==",
                    oracle := .array [] })
        { results := [], queue := [⟨⟨"f.jpg", "image/jpeg"⟩, "id", "p"⟩],
          status := .IDLE, progress := (0, 0) }).2
        = Ev.setStatus .PROCESSING :: Ev.setProgress 0
            ([(⟨⟨"f.jpg", "image/jpeg"⟩, "id", "p"⟩ : QueueItem)]).length ::
          Ev.resetResults :: Ev.clearQueue :: rest)
    ∧ (handleProcessQueue
        (fun _ => { apiKeyPresent := true, encode := fun _ => some "ZA==",
                    oracle := .array [] })
        { results := [], queue := [⟨⟨"f.jpg", "image/jpeg"⟩, "id", "p"⟩],
          status := .IDLE, progress := (0, 0) }).1.queue = [] := by
  have h := run_start_resets_store
    (fun _ => { apiKeyPresent := true, encode := fun _ => some "ZA==",
                oracle := .array [] })
    { results := [], queue := [⟨⟨"f.jpg", "image/jpeg"⟩, "id", "p"⟩],
      status := .IDLE, progress := (0, 0) }
    (by decide)
  exact ⟨h.1, h.2.2.2⟩

/-- C10 (implicit): every entry the orchestrator appends to the result
store has `some` latitude and longitude and a nonempty address; a missing
record or a missing/zero coordinate is coerced to the sentinel `some 0`,
and a missing or empty address to `"Processing Error"` — the `null`
coordinates allowed by the `ProcessedImage` type never occur in
orchestrator-produced entries. -/
theorem orchestrator_entries_nonnull :
    (∀ (env : ℕ → ClientEnv) (s : AppState) (rs : List ProcessedImage),
        Ev.append rs ∈ (handleProcessQueue env s).2 →
        ∀ p ∈ rs, p.latitude.isSome = true ∧ p.longitude.isSome = true
          ∧ p.address ≠ "")
    ∧ (∀ item : QueueItem,
        (mergeItem item none).latitude = some 0
        ∧ (mergeItem item none).longitude = some 0
        ∧ (mergeItem item none).address = "Processing Error")
    ∧ (∀ (item : QueueItem) (g : RawItem), g.latitude = none →
        (mergeItem item (some g)).latitude = some 0)
    ∧ (∀ (item : QueueItem) (g : RawItem), g.longitude = none →
        (mergeItem item (some g)).longitude = some 0)
    ∧ (∀ (item : QueueItem) (g : RawItem), g.address = none ∨ g.address = some "" →
        (mergeItem item (some g)).address = "Processing Error") := by
  refine ⟨?_, ?_, ?_, ?_, ?_⟩
  · intro env s rs hev p hp
    by_cases hq : s.queue = []
    · have hnil : (handleProcessQueue env s).2 = [] := by
        simp [handleProcessQueue, hq]
      rw [hnil] at hev
      simp at hev
    · rw [handleProcessQueue_eq env s hq] at hev
      simp only [List.mem_cons] at hev
      rcases hev with h | h | h | h | h
      · exact Ev.noConfusion h
      · exact Ev.noConfusion h
      · exact Ev.noConfusion h
      · exact Ev.noConfusion h
      · obtain ⟨c, items, _hc, rfl⟩ := append_ev_runChunks env s.queue.length
          (chunked s.queue) 0 0 [] (0, s.queue.length) rs h
        obtain ⟨item, _hitem, g, rfl⟩ := mem_mergeChunk c items p hp
        exact mergeItem_wellformed item g
  · intro item
    exact ⟨rfl, rfl, rfl⟩
  · intro item g hg
    simp [mergeItem, hg]
  · intro item g hg
    simp [mergeItem, hg]
  · intro item g hg
    rcases hg with hg | hg <;> simp [mergeItem, jsOrS, hg]

/-- Witness for C10: a one-item run whose oracle returns an empty array
appends exactly the coerced placeholder entry, which has `some 0`
coordinates and the `"Processing Error"` address. -/
theorem orchestrator_entries_nonnull_witness :
    ((mergeItem ⟨⟨"f.jpg", "image/jpeg"⟩, "id", "p"⟩ none).latitude.isSome = true
      ∧ (mergeItem ⟨⟨"f.jpg", "image/jpeg"⟩, "id", "p"⟩ none).longitude.isSome = true
      ∧ (mergeItem ⟨⟨"f.jpg", "image/jpeg"⟩, "id", "p"⟩ none).address ≠ "")
    ∧ (mergeItem ⟨⟨"f.jpg", "image/jpeg"⟩, "id", "p"⟩ none).address
        = "Processing Error" := by
  have h := orchestrator_entries_nonnull
  refine ⟨h.1
    (fun _ => { apiKeyPresent := true, encode := fun _ => some "ZA==",
                oracle := .array [] })
    { results := [], queue := [⟨⟨"f.jpg", "image/jpeg"⟩, "id", "p"⟩],
      status := .IDLE, progress := (0, 0) }
    [mergeItem ⟨⟨"f.jpg", "image/jpeg"⟩, "id", "p"⟩ none]
    (by decide) _ (by decide), (h.2.1 ⟨⟨"f.jpg", "image/jpeg"⟩, "id", "p"⟩).2.2⟩

/-- C4: on a queue of 23 files with every client call succeeding, the
orchestrator runs exactly 3 sequential chunks of sizes 10, 10, 3, appends
each chunk's merged results before issuing the next chunk's request, the
loop's progress updates are exactly `(10, 23)`, `(20, 23)`, `(23, 23)`,
and the final status is `COMPLETED` — the full event trace is exhibited. -/
theorem orchestrator_scenario_23 (env : ℕ → ClientEnv) (s : AppState)
    (hlen : s.queue.length = 23)
    (h0 : (processImageBatch (env 0) ((s.queue.take 10).map (·.file))).isOk = true)
    (h1 : (processImageBatch (env 1) (((s.queue.drop 10).take 10).map (·.file))).isOk = true)
    (h2 : (processImageBatch (env 2) ((s.queue.drop 20).map (·.file))).isOk = true) :
    ∃ m0 m1 m2 : List ProcessedImage,
      m0.length = 10 ∧ m1.length = 10 ∧ m2.length = 3
      ∧ (handleProcessQueue env s).2 =
          [Ev.setStatus .PROCESSING, Ev.setProgress 0 23, Ev.resetResults, Ev.clearQueue,
           Ev.call 0 ((s.queue.take 10).map (·.file)), Ev.append m0, Ev.setProgress 10 23,
           Ev.call 1 (((s.queue.drop 10).take 10).map (·.file)), Ev.append m1,
           Ev.setProgress 20 23,
           Ev.call 2 ((s.queue.drop 20).map (·.file)), Ev.append m2, Ev.setProgress 23 23,
           Ev.setStatus .COMPLETED]
      ∧ (handleProcessQueue env s).1.results = m0 ++ m1 ++ m2
      ∧ (handleProcessQueue env s).1.status = .COMPLETED
      ∧ (handleProcessQueue env s).1.progress = (23, 23) := by
  have hq : s.queue ≠ [] := by
    intro h
    rw [h] at hlen
    simp at hlen
  have hd10 : (s.queue.drop 10).length = 13 := by simp [hlen]
  have hd20 : (s.queue.drop 20).length = 3 := by simp [hlen]
  have hq1 : s.queue.drop 10 ≠ [] := by
    intro h
    rw [h] at hd10
    simp at hd10
  have hq2 : s.queue.drop 20 ≠ [] := by
    intro h
    rw [h] at hd20
    simp at hd20
  have hdd : (s.queue.drop 10).drop 10 = s.queue.drop 20 := by
    rw [List.drop_drop]
  have hdd2 : (s.queue.drop 20).drop 10 = [] :=
    List.drop_eq_nil_of_le (by rw [hd20]; norm_num)
  have htake3 : (s.queue.drop 20).take 10 = s.queue.drop 20 :=
    List.take_of_length_le (by rw [hd20]; norm_num)
  have hB : (BATCH_SIZE : ℕ) = 10 := rfl
  have hchunk : chunked s.queue
      = [s.queue.take 10, (s.queue.drop 10).take 10, s.queue.drop 20] := by
    rw [chunked_cons_eq hq, hB, chunked_cons_eq hq1, hB, hdd,
      chunked_cons_eq hq2, hB, htake3, hdd2]
    simp [chunked, chunkedGo]
  have hl0 : (s.queue.take 10).length = 10 := by
    rw [List.length_take, hlen]
    decide
  have hl1 : ((s.queue.drop 10).take 10).length = 10 := by
    rw [List.length_take, hd10]
    decide
  cases hpe0 : processImageBatch (env 0) ((s.queue.take 10).map (·.file)) with
  | error e => rw [hpe0] at h0; simp [Except.isOk, Except.toBool] at h0
  | ok items0 =>
  cases hpe1 : processImageBatch (env 1) (((s.queue.drop 10).take 10).map (·.file)) with
  | error e => rw [hpe1] at h1; simp [Except.isOk, Except.toBool] at h1
  | ok items1 =>
  cases hpe2 : processImageBatch (env 2) ((s.queue.drop 20).map (·.file)) with
  | error e => rw [hpe2] at h2; simp [Except.isOk, Except.toBool] at h2
  | ok items2 =>
  have hrun : runChunks env 23
      [s.queue.take 10, (s.queue.drop 10).take 10, s.queue.drop 20] 0 0 [] (0, 23)
      = ⟨[Ev.call 0 ((s.queue.take 10).map (·.file)),
          Ev.append (mergeChunk (s.queue.take 10) items0),
          Ev.setProgress 10 23,
          Ev.call 1 (((s.queue.drop 10).take 10).map (·.file)),
          Ev.append (mergeChunk ((s.queue.drop 10).take 10) items1),
          Ev.setProgress 20 23,
          Ev.call 2 ((s.queue.drop 20).map (·.file)),
          Ev.append (mergeChunk (s.queue.drop 20) items2),
          Ev.setProgress 23 23,
          Ev.setStatus .COMPLETED],
         mergeChunk (s.queue.take 10) items0
           ++ mergeChunk ((s.queue.drop 10).take 10) items1
           ++ mergeChunk (s.queue.drop 20) items2,
         (23, 23), .COMPLETED⟩ := by
    simp only [runChunks, hpe0, hpe1, hpe2, hl0, hl1, hd20, Nat.zero_add,
      List.nil_append]
  refine ⟨mergeChunk (s.queue.take 10) items0,
    mergeChunk ((s.queue.drop 10).take 10) items1,
    mergeChunk (s.queue.drop 20) items2, ?_, ?_, ?_, ?_, ?_, ?_, ?_⟩
  · rw [mergeChunk_length, hl0]
  · rw [mergeChunk_length, hl1]
  · rw [mergeChunk_length, hd20]
  · rw [handleProcessQueue_eq env s hq, hlen, hchunk, hrun]
  · rw [handleProcessQueue_eq env s hq, hlen, hchunk, hrun]
  · rw [handleProcessQueue_eq env s hq, hlen, hchunk, hrun]
  · rw [handleProcessQueue_eq env s hq, hlen, hchunk, hrun]

/-- Witness for C4: a concrete 23-item queue under an always-succeeding
client environment produces exactly the three-chunk trace. -/
theorem orchestrator_scenario_23_witness :
    ∃ m0 m1 m2 : List ProcessedImage,
      m0.length = 10 ∧ m1.length = 10 ∧ m2.length = 3
      ∧ (handleProcessQueue
            (fun _ => { apiKeyPresent := true, encode := fun _ => some "ZA==",
                        oracle := .array [] })
            { results := [],
              queue := List.replicate 23 ⟨⟨"f.jpg", "image/jpeg"⟩, "id", "p"⟩,
              status := .IDLE, progress := (0, 0) }).2 =
          [Ev.setStatus .PROCESSING, Ev.setProgress 0 23, Ev.resetResults, Ev.clearQueue,
           Ev.call 0 (((List.replicate 23
              (⟨⟨"f.jpg", "image/jpeg"⟩, "id", "p"⟩ : QueueItem)).take 10).map (·.file)),
           Ev.append m0, Ev.setProgress 10 23,
           Ev.call 1 ((((List.replicate 23
              (⟨⟨"f.jpg", "image/jpeg"⟩, "id", "p"⟩ : QueueItem)).drop 10).take 10).map (·.file)),
           Ev.append m1, Ev.setProgress 20 23,
           Ev.call 2 (((List.replicate 23
              (⟨⟨"f.jpg", "image/jpeg"⟩, "id", "p"⟩ : QueueItem)).drop 20).map (·.file)),
           Ev.append m2, Ev.setProgress 23 23,
           Ev.setStatus .COMPLETED]
      ∧ (handleProcessQueue
            (fun _ => { apiKeyPresent := true, encode := fun _ => some "ZA==",
                        oracle := .array [] })
            { results := [],
              queue := List.replicate 23 ⟨⟨"f.jpg", "image/jpeg"⟩, "id", "p"⟩,
              status := .IDLE, progress := (0, 0) }).1.results = m0 ++ m1 ++ m2
      ∧ (handleProcessQueue
            (fun _ => { apiKeyPresent := true, encode := fun _ => some "ZA==",
                        oracle := .array [] })
            { results := [],
              queue := List.replicate 23 ⟨⟨"f.jpg", "image/jpeg"⟩, "id", "p"⟩,
              status := .IDLE, progress := (0, 0) }).1.status = .COMPLETED
      ∧ (handleProcessQueue
            (fun _ => { apiKeyPresent := true, encode := fun _ => some "ZA==",
                        oracle := .array [] })
            { results := [],
              queue := List.replicate 23 ⟨⟨"f.jpg", "image/jpeg"⟩, "id", "p"⟩,
              status := .IDLE, progress := (0, 0) }).1.progress = (23, 23) :=
  orchestrator_scenario_23
    (fun _ => { apiKeyPresent := true, encode := fun _ => some "ZA==",
                oracle := .array [] })
    { results := [],
      queue := List.replicate 23 ⟨⟨"f.jpg", "image/jpeg"⟩, "id", "p"⟩,
      status := .IDLE, progress := (0, 0) }
    (by simp)
    (processImageBatch_ok_of _ _ rfl (encodeAll_total _ (by intro f; rfl) _))
    (processImageBatch_ok_of _ _ rfl (encodeAll_total _ (by intro f; rfl) _))
    (processImageBatch_ok_of _ _ rfl (encodeAll_total _ (by intro f; rfl) _))

lemma splitSep_ne_nil (sep : Char) : ∀ l : List Char, splitSep sep l ≠ [] := by
  intro l
  induction l with
  | nil => simp [splitSep]
  | cons c cs ih =>
    cases h : splitSep sep cs with
    | nil => exact absurd h ih
    | cons r rs =>
      simp only [splitSep, h]
      split <;> simp

lemma splitSep_no_sep (sep : Char) : ∀ l : List Char, sep ∉ l → splitSep sep l = [l] := by
  intro l
  induction l with
  | nil => intro _; rfl
  | cons c cs ih =>
    intro h
    have hc : ¬(c = sep) := fun he => h (he ▸ List.mem_cons_self c cs)
    have hcs : sep ∉ cs := fun hm => h (List.mem_cons_of_mem c hm)
    simp only [splitSep, ih hcs]
    simp [hc]

lemma splitSep_append (sep : Char) : ∀ (p t : List Char), sep ∉ p →
    splitSep sep (p ++ sep :: t) = p :: splitSep sep t := by
  intro p
  induction p with
  | nil =>
    intro t _
    cases h : splitSep sep t with
    | nil => exact absurd h (splitSep_ne_nil sep t)
    | cons r rs => simp [splitSep, h]
  | cons c p2 ih =>
    intro t h
    have hc : ¬(c = sep) := fun he => h (he ▸ List.mem_cons_self _ _)
    have hp : sep ∉ p2 := fun hm => h (List.mem_cons_of_mem c hm)
    rw [List.cons_append]
    simp only [splitSep, ih t hp]
    simp [hc]

lemma splitSep_joinSep (sep : Char) : ∀ parts : List (List Char), parts ≠ [] →
    (∀ p ∈ parts, sep ∉ p) → splitSep sep (joinSep sep parts) = parts := by
  intro parts
  induction parts with
  | nil => intro h; exact absurd rfl h
  | cons p ps ih =>
    intro _ hall
    cases ps with
    | nil => exact splitSep_no_sep sep p (hall p (List.mem_cons_self _ _))
    | cons q qs =>
      rw [show joinSep sep (p :: q :: qs) = p ++ sep :: joinSep sep (q :: qs) from rfl,
        splitSep_append sep p _ (hall p (List.mem_cons_self _ _)),
        ih (by simp) fun x hx => hall x (List.mem_cons_of_mem p hx)]

lemma mem_joinSep (sep : Char) : ∀ (parts : List (List Char)) (c : Char),
    c ∈ joinSep sep parts → c = sep ∨ ∃ p ∈ parts, c ∈ p := by
  intro parts
  induction parts with
  | nil => intro c hc; simp [joinSep] at hc
  | cons p ps ih =>
    intro c hc
    cases ps with
    | nil => exact Or.inr ⟨p, List.mem_cons_self _ _, hc⟩
    | cons q qs =>
      rw [show joinSep sep (p :: q :: qs) = p ++ sep :: joinSep sep (q :: qs) from rfl,
        List.mem_append, List.mem_cons] at hc
      rcases hc with hc | hc | hc
      · exact Or.inr ⟨p, List.mem_cons_self _ _, hc⟩
      · exact Or.inl hc
      · rcases ih c hc with h | ⟨x, hx, hcx⟩
        · exact Or.inl h
        · exact Or.inr ⟨x, List.mem_cons_of_mem p hx, hcx⟩

lemma charToDigit_digitToChar : ∀ d : ℕ, d < 10 → charToDigit (digitToChar d) = d := by
  decide

lemma digitToChar_isDigit : ∀ d : ℕ, d < 10 → (digitToChar d).isDigit = true := by
  decide

lemma natFromDigits_snoc (l : List Char) (c : Char) :
    natFromDigits (l ++ [c]) = 10 * natFromDigits l + charToDigit c := by
  unfold natFromDigits
  rw [List.foldl_append]
  rfl

lemma natDigitsGo_correct : ∀ (fuel n : ℕ), n ≤ fuel →
    natFromDigits (natDigitsGo fuel n) = n := by
  intro fuel
  induction fuel with
  | zero =>
    intro n hn
    interval_cases n
    rfl
  | succ fuel ih =>
    intro n hn
    cases n with
    | zero => rfl
    | succ m =>
      rw [show natDigitsGo (fuel + 1) (m + 1)
          = natDigitsGo fuel ((m + 1) / 10) ++ [digitToChar ((m + 1) % 10)] from rfl,
        natFromDigits_snoc, ih ((m + 1) / 10) (by omega),
        charToDigit_digitToChar _ (Nat.mod_lt _ (by norm_num))]
      omega

lemma natFromDigits_natDigits (n : ℕ) : natFromDigits (natDigits n) = n := by
  by_cases h : n = 0
  · subst h; rfl
  · unfold natDigits
    rw [if_neg h]
    exact natDigitsGo_correct n n le_rfl

lemma natDigitsGo_digits : ∀ (fuel n : ℕ), ∀ c ∈ natDigitsGo fuel n, c.isDigit = true := by
  intro fuel
  induction fuel with
  | zero =>
    intro n c hc
    cases n <;> simp [natDigitsGo] at hc
  | succ fuel ih =>
    intro n c hc
    cases n with
    | zero => simp [natDigitsGo] at hc
    | succ m =>
      rw [show natDigitsGo (fuel + 1) (m + 1)
          = natDigitsGo fuel ((m + 1) / 10) ++ [digitToChar ((m + 1) % 10)] from rfl,
        List.mem_append] at hc
      rcases hc with hc | hc
      · exact ih _ c hc
      · rw [List.mem_singleton] at hc
        subst hc
        exact digitToChar_isDigit _ (Nat.mod_lt _ (by norm_num))

lemma natDigits_digits (n : ℕ) : ∀ c ∈ natDigits n, c.isDigit = true := by
  by_cases h : n = 0
  · subst h
    intro c hc
    simp [natDigits] at hc
    subst hc
    decide
  · unfold natDigits
    rw [if_neg h]
    exact natDigitsGo_digits n n

lemma natDigits_ne_nil (n : ℕ) : natDigits n ≠ [] := by
  by_cases h : n = 0
  · subst h; simp [natDigits]
  · unfold natDigits
    rw [if_neg h]
    obtain ⟨m, rfl⟩ : ∃ m, n = m + 1 := ⟨n - 1, by omega⟩
    rw [show natDigitsGo (m + 1) (m + 1)
        = natDigitsGo m ((m + 1) / 10) ++ [digitToChar ((m + 1) % 10)] from rfl]
    simp

lemma natDigitsGo_length : ∀ (fuel n k : ℕ), n ≤ fuel → n < 10 ^ k →
    (natDigitsGo fuel n).length ≤ k := by
  intro fuel
  induction fuel with
  | zero =>
    intro n k hn _hk
    interval_cases n
    simp [natDigitsGo]
  | succ fuel ih =>
    intro n k hn hk
    cases n with
    | zero => simp [natDigitsGo]
    | succ m =>
      have hk1 : 1 ≤ k := by
        by_contra hk0
        push_neg at hk0
        interval_cases k
        simp at hk
      obtain ⟨k2, rfl⟩ : ∃ k2, k = k2 + 1 := ⟨k - 1, by omega⟩
      rw [show natDigitsGo (fuel + 1) (m + 1)
          = natDigitsGo fuel ((m + 1) / 10) ++ [digitToChar ((m + 1) % 10)] from rfl,
        List.length_append]
      have hdiv : (m + 1) / 10 < 10 ^ k2 := by
        rw [pow_succ] at hk
        omega
      have := ih ((m + 1) / 10) k2 (by omega) hdiv
      simp only [List.length_singleton]
      omega

lemma natDigits_length_le6 (n : ℕ) (h : n < 1000000) : (natDigits n).length ≤ 6 := by
  by_cases h0 : n = 0
  · subst h0; simp [natDigits]
  · unfold natDigits
    rw [if_neg h0]
    exact natDigitsGo_length n n 6 le_rfl (by norm_num; omega)

lemma padLeft6_length (l : List Char) (h : l.length ≤ 6) : (padLeft6 l).length = 6 := by
  simp [padLeft6]
  omega

lemma padLeft6_digits (l : List Char) (h : ∀ c ∈ l, c.isDigit = true) :
    ∀ c ∈ padLeft6 l, c.isDigit = true := by
  intro c hc
  rw [padLeft6, List.mem_append] at hc
  rcases hc with hc | hc
  · rw [List.eq_of_mem_replicate hc]
    decide
  · exact h c hc

lemma padLeft6_ne_nil (l : List Char) (h : l ≠ []) : padLeft6 l ≠ [] := by
  intro hx
  rcases List.append_eq_nil.mp hx with ⟨_, h2⟩
  exact h h2

lemma foldl_digits_replicate_zero :
    ∀ k : ℕ, List.foldl (fun acc c => 10 * acc + charToDigit c) 0
      (List.replicate k '0') = 0 := by
  intro k
  induction k with
  | zero => rfl
  | succ k ih =>
    rw [List.replicate_succ, List.foldl_cons,
      show (10 * 0 + charToDigit '0' : ℕ) = 0 from by decide]
    exact ih

lemma natFromDigits_padLeft6 (l : List Char) :
    natFromDigits (padLeft6 l) = natFromDigits l := by
  unfold padLeft6 natFromDigits
  rw [List.foldl_append, foldl_digits_replicate_zero]

lemma parseNatChars_of (l : List Char) (h1 : l ≠ []) (h2 : ∀ c ∈ l, c.isDigit = true) :
    parseNatChars l = some (natFromDigits l) := by
  have hie : l.isEmpty = false := by
    cases l with
    | nil => exact absurd rfl h1
    | cons a t => rfl
  have hcond : (!l.isEmpty && l.all Char.isDigit) = true := by
    rw [hie]
    simp only [Bool.not_false, Bool.true_and, List.all_eq_true]
    simpa using h2
  unfold parseNatChars
  rw [if_pos hcond]

lemma parseNatChars_natDigits (n : ℕ) : parseNatChars (natDigits n) = some n := by
  rw [parseNatChars_of _ (natDigits_ne_nil n) (natDigits_digits n), natFromDigits_natDigits]

lemma floorNN_bounds (r : ℚ) (hr : 0 ≤ r) :
    (floorNN r : ℚ) ≤ r ∧ r < floorNN r + 1 := by
  have hdenpos : (0 : ℚ) < (r.den : ℚ) := by exact_mod_cast r.pos
  have hnum0 : 0 ≤ r.num := Rat.num_nonneg.mpr hr
  have hcast : ((r.num.toNat : ℕ) : ℚ) = (r.num : ℚ) := by
    exact_mod_cast congrArg (fun z : ℤ => (z : ℚ)) (Int.toNat_of_nonneg hnum0)
  constructor
  · conv_rhs => rw [← Rat.num_div_den r]
    rw [le_div_iff₀ hdenpos]
    have h1 : floorNN r * r.den ≤ r.num.toNat := Nat.div_mul_le_self _ _
    calc (floorNN r : ℚ) * r.den = ((floorNN r * r.den : ℕ) : ℚ) := by push_cast; ring
      _ ≤ ((r.num.toNat : ℕ) : ℚ) := by exact_mod_cast h1
      _ = (r.num : ℚ) := hcast
  · conv_lhs => rw [← Rat.num_div_den r]
    rw [div_lt_iff₀ hdenpos]
    have hmod : r.num.toNat % r.den < r.den := Nat.mod_lt _ r.pos
    have h2 : r.num.toNat < (floorNN r + 1) * r.den := by
      calc r.num.toNat
          = r.den * (r.num.toNat / r.den) + r.num.toNat % r.den :=
            (Nat.div_add_mod _ _).symm
        _ < r.den * (r.num.toNat / r.den) + r.den := Nat.add_lt_add_left hmod _
        _ = (r.num.toNat / r.den + 1) * r.den := by ring
    calc (r.num : ℚ) = ((r.num.toNat : ℕ) : ℚ) := hcast.symm
      _ < (((floorNN r + 1) * r.den : ℕ) : ℚ) := by exact_mod_cast h2
      _ = ((floorNN r : ℚ) + 1) * (r.den : ℚ) := by push_cast; ring

lemma approx6_close (q : ℚ) (hq : 0 ≤ q) : |approx6 q - q| ≤ 1 / 2000000 := by
  have hr : (0 : ℚ) ≤ q * 1000000 + 1 / 2 := by positivity
  obtain ⟨h1, h2⟩ := floorNN_bounds (q * 1000000 + 1 / 2) hr
  rw [approx6, abs_le]
  constructor <;> linarith

lemma parseDecChars_toFixed6 (x : ℚ) :
    parseDecChars (toFixed6 x)
      = some ((floorNN (x * 1000000 + 1 / 2) : ℚ) / 1000000) := by
  set n := floorNN (x * 1000000 + 1 / 2) with hn
  have hip : parseNatChars (natDigits (n / 1000000)) = some (n / 1000000) :=
    parseNatChars_natDigits _
  have hfp : parseNatChars (padLeft6 (natDigits (n % 1000000))) = some (n % 1000000) := by
    rw [parseNatChars_of _ (padLeft6_ne_nil _ (natDigits_ne_nil _))
        (padLeft6_digits _ (natDigits_digits _)),
      natFromDigits_padLeft6, natFromDigits_natDigits]
  have hlen : (padLeft6 (natDigits (n % 1000000))).length = 6 :=
    padLeft6_length _ (natDigits_length_le6 _ (Nat.mod_lt _ (by norm_num)))
  have hnodot1 : '.' ∉ natDigits (n / 1000000) := by
    intro hm
    have := natDigits_digits _ _ hm
    exact absurd this (by decide)
  have hnodot2 : '.' ∉ padLeft6 (natDigits (n % 1000000)) := by
    intro hm
    have := padLeft6_digits _ (natDigits_digits _) _ hm
    exact absurd this (by decide)
  have hsplit : splitSep '.' (toFixed6 x)
      = [natDigits (n / 1000000), padLeft6 (natDigits (n % 1000000))] := by
    rw [show toFixed6 x
        = natDigits (n / 1000000) ++ '.' :: padLeft6 (natDigits (n % 1000000)) from rfl,
      splitSep_append '.' _ _ hnodot1, splitSep_no_sep '.' _ hnodot2]
  rw [show parseDecChars (toFixed6 x)
      = (match splitSep '.' (toFixed6 x) with
         | [ip] => (parseNatChars ip).map fun m => (m : ℚ)
         | [ip, fp] =>
           match parseNatChars ip, parseNatChars fp with
           | some i, some f => some ((i : ℚ) + (f : ℚ) / (10 : ℚ) ^ fp.length)
           | _, _ => none
         | _ => none) from rfl, hsplit]
  simp only [hip, hfp, hlen]
  have hnat : n / 1000000 * 1000000 + n % 1000000 = n := by omega
  have hval : ((n / 1000000 : ℕ) : ℚ) + ((n % 1000000 : ℕ) : ℚ) / (10 : ℚ) ^ (6 : ℕ)
      = (n : ℚ) / 1000000 := by
    have h6 : ((10 : ℚ) ^ (6 : ℕ)) = 1000000 := by norm_num
    rw [h6]
    field_simp
    exact_mod_cast hnat
  rw [hval]

lemma toFixed6_chars (x : ℚ) : ∀ c ∈ toFixed6 x, c.isDigit = true ∨ c = '.' := by
  intro c hc
  rw [show toFixed6 x
      = natDigits (floorNN (x * 1000000 + 1 / 2) / 1000000) ++
        '.' :: padLeft6 (natDigits (floorNN (x * 1000000 + 1 / 2) % 1000000)) from rfl,
    List.mem_append, List.mem_cons] at hc
  rcases hc with hc | hc | hc
  · exact Or.inl (natDigits_digits _ c hc)
  · exact Or.inr hc
  · exact Or.inl (padLeft6_digits _ (natDigits_digits _) c hc)

lemma format_some (q : ℚ) (hq : q ≠ 0) (t : Bool) :
    formatCoordinate (some q) t
      = toFixed6 |q| ++
        ['°', ' ', if t then (if 0 ≤ q then 'N' else 'S')
                   else (if 0 ≤ q then 'E' else 'W')] := by
  simp only [formatCoordinate, if_neg hq]

lemma format_ne_dashes (q : ℚ) (hq : q ≠ 0) (t : Bool) :
    formatCoordinate (some q) t ≠ ['-', '-'] := by
  intro h
  rw [format_some q hq t] at h
  have hlen := congrArg List.length h
  simp [List.length_append] at hlen

lemma formatCoordinate_no_ctrl (v : Option ℚ) (t : Bool) :
    ∀ c ∈ formatCoordinate v t, c ≠ '\t' ∧ c ≠ '\n' := by
  intro c hc
  cases v with
  | none =>
    simp [formatCoordinate] at hc
    subst hc
    exact ⟨by decide, by decide⟩
  | some q =>
    by_cases hq : q = 0
    · subst hq
      simp [formatCoordinate] at hc
      subst hc
      exact ⟨by decide, by decide⟩
    · rw [format_some q hq t, List.mem_append] at hc
      rcases hc with hc | hc
      · rcases toFixed6_chars _ _ hc with h | h
        · refine ⟨?_, ?_⟩ <;> rintro rfl <;> exact absurd h (by decide)
        · subst h
          exact ⟨by decide, by decide⟩
      · simp only [List.mem_cons, List.not_mem_nil, or_false] at hc
        rcases hc with rfl | rfl | rfl
        · exact ⟨by decide, by decide⟩
        · exact ⟨by decide, by decide⟩
        · refine ⟨?_, ?_⟩ <;> (split <;> split <;> decide)

lemma parseCoordCell_cell (v : Option ℚ) (t : Bool) :
    parseCoordCell
        (if formatCoordinate v t = ['-', '-'] then [] else formatCoordinate v t)
      = some (roundtripCoord v) := by
  cases v with
  | none => rfl
  | some q =>
    by_cases hq : q = 0
    · subst hq
      rfl
    · rw [if_neg (format_ne_dashes q hq t), format_some q hq t]
      set dir := if t then (if 0 ≤ q then 'N' else 'S')
                 else (if 0 ≤ q then 'E' else 'W') with hdir
      have hnodeg : '°' ∉ toFixed6 |q| := by
        intro hm
        rcases toFixed6_chars _ _ hm with h | h
        · exact absurd h (by decide)
        · exact absurd h (by decide)
      have hdirne : ¬(dir = '°') := by
        rw [hdir]
        split <;> split <;> decide
      have hnodeg2 : '°' ∉ ([' ', dir] : List Char) := by
        simp only [List.mem_cons, List.not_mem_nil, or_false]
        rintro (h | h)
        · exact absurd h.symm (by decide)
        · exact hdirne h.symm
      have hsplit : splitSep '°' (toFixed6 |q| ++ ['°', ' ', dir])
          = [toFixed6 |q|, [' ', dir]] := by
        rw [show (['°', ' ', dir] : List Char) = '°' :: [' ', dir] from rfl,
          splitSep_append '°' _ _ hnodeg, splitSep_no_sep '°' _ hnodeg2]
      have hne : (toFixed6 |q| ++ ['°', ' ', dir]).isEmpty = false := by
        cases hcell : toFixed6 |q| ++ ['°', ' ', dir] with
        | nil =>
          rcases List.append_eq_nil.mp hcell with ⟨_, h2⟩
          exact absurd h2 (by simp)
        | cons a l => rfl
      rw [show parseCoordCell (toFixed6 |q| ++ ['°', ' ', dir])
          = (if (toFixed6 |q| ++ ['°', ' ', dir]).isEmpty then some none
             else
               match splitSep '°' (toFixed6 |q| ++ ['°', ' ', dir]) with
               | [num, [' ', d]] =>
                 match parseDecChars num with
                 | some w =>
                   if d = 'N' ∨ d = 'E' then some (some w)
                   else if d = 'S' ∨ d = 'W' then some (some (-w))
                   else none
                 | none => none
               | _ => none) from rfl, hne, hsplit]
      simp only [Bool.false_eq_true, if_false, parseDecChars_toFixed6]
      rw [show roundtripCoord (some q)
          = (if q = 0 then none
             else if 0 ≤ q then some (approx6 |q|) else some (-approx6 |q|)) from rfl,
        if_neg hq]
      by_cases hsgn : 0 ≤ q
      · rw [if_pos hsgn]
        have : dir = if t then 'N' else 'E' := by rw [hdir]; cases t <;> simp [hsgn]
        rw [this]
        cases t <;> rfl
      · rw [if_neg hsgn]
        have : dir = if t then 'S' else 'W' := by rw [hdir]; cases t <;> simp [hsgn]
        rw [this]
        cases t <;> rfl

lemma rowLine_eq (r : ProcessedImage) :
    rowLine r = joinSep '\t'
      [r.fileName.data,
       cleanAddress r.address,
       (if formatCoordinate r.latitude true = ['-', '-'] then []
        else formatCoordinate r.latitude true),
       (if formatCoordinate r.longitude false = ['-', '-'] then []
        else formatCoordinate r.longitude false),
       r.date.data,
       r.time.data] := rfl

lemma coordCell_no_ctrl (v : Option ℚ) (t : Bool) :
    ∀ c ∈ (if formatCoordinate v t = ['-', '-'] then [] else formatCoordinate v t),
      c ≠ '\t' ∧ c ≠ '\n' := by
  intro c hc
  by_cases hA : formatCoordinate v t = ['-', '-']
  · rw [if_pos hA] at hc
    simp at hc
  · rw [if_neg hA] at hc
    exact formatCoordinate_no_ctrl v t c hc

lemma rowLine_no_nl (r : ProcessedImage)
    (hfn : '\n' ∉ r.fileName.data) (had : '\n' ∉ r.address.data)
    (haddr : cleanAddress r.address = r.address.data)
    (hd : '\n' ∉ r.date.data) (ht : '\n' ∉ r.time.data) :
    ∀ c ∈ rowLine r, c ≠ '\n' := by
  intro c hc
  rw [rowLine_eq] at hc
  rcases mem_joinSep '\t' _ c hc with rfl | ⟨p, hp, hcp⟩
  · decide
  · simp only [List.mem_cons, List.not_mem_nil, or_false] at hp
    rcases hp with rfl | rfl | rfl | rfl | rfl | rfl
    · intro he; subst he; exact hfn hcp
    · intro he; subst he; rw [haddr] at hcp; exact had hcp
    · exact (coordCell_no_ctrl r.latitude true c hcp).2
    · exact (coordCell_no_ctrl r.longitude false c hcp).2
    · intro he; subst he; exact hd hcp
    · intro he; subst he; exact ht hcp

lemma parseRowLine_rowLine (r : ProcessedImage)
    (hfn : '\t' ∉ r.fileName.data) (had : '\t' ∉ r.address.data)
    (haddr : cleanAddress r.address = r.address.data)
    (hd : '\t' ∉ r.date.data) (ht : '\t' ∉ r.time.data) :
    parseRowLine (rowLine r)
      = some ⟨r.fileName.data, r.address.data, roundtripCoord r.latitude,
              roundtripCoord r.longitude, r.date.data, r.time.data⟩ := by
  have hcells : splitSep '\t' (rowLine r)
      = [r.fileName.data,
         cleanAddress r.address,
         (if formatCoordinate r.latitude true = ['-', '-'] then []
          else formatCoordinate r.latitude true),
         (if formatCoordinate r.longitude false = ['-', '-'] then []
          else formatCoordinate r.longitude false),
         r.date.data,
         r.time.data] := by
    rw [rowLine_eq]
    apply splitSep_joinSep
    · simp
    · intro p hp
      simp only [List.mem_cons, List.not_mem_nil, or_false] at hp
      rcases hp with rfl | rfl | rfl | rfl | rfl | rfl
      · exact hfn
      · rw [haddr]; exact had
      · intro hm; exact (coordCell_no_ctrl r.latitude true _ hm).1 rfl
      · intro hm; exact (coordCell_no_ctrl r.longitude false _ hm).1 rfl
      · exact hd
      · exact ht
  rw [show parseRowLine (rowLine r)
      = (match splitSep '\t' (rowLine r) with
         | [fn, ad, la, lo, d, t] =>
           match parseCoordCell la, parseCoordCell lo with
           | some lat, some lng => some ⟨fn, ad, lat, lng, d, t⟩
           | _, _ => none
         | _ => none) from rfl, hcells]
  simp only [parseCoordCell_cell, haddr]

lemma parseAllRows_map {g : ProcessedImage → ParsedRow} :
    ∀ rows : List ProcessedImage,
      (∀ r ∈ rows, parseRowLine (rowLine r) = some (g r)) →
      parseAllRows (rows.map rowLine) = some (rows.map g) := by
  intro rows
  induction rows with
  | nil => intro _; rfl
  | cons r rs ih =>
    intro h
    rw [List.map_cons, List.map_cons,
      show parseAllRows (rowLine r :: rs.map rowLine)
        = (match parseRowLine (rowLine r), parseAllRows (rs.map rowLine) with
           | some a, some b => some (a :: b)
           | _, _ => none) from rfl,
      h r (List.mem_cons_self _ _), ih fun x hx => h x (List.mem_cons_of_mem r hx)]

/-- C7 counterexample: an address containing a tab is sanitised by the
export (`replace(/[\t\n\r]/g, ' ')`), so parsing the block back does not
recover it exactly, against the claim's universal exact recovery of
addresses. -/
theorem export_roundtrip_tab_counterexample :
    parseTsv (handleCopyTsv
        [{ originalFile := ⟨"f", "image/jpeg"⟩, fileName := "a.jpg",
           previewUrl := "p", address := "x\ty", latitude := none,
           longitude := none, date := "", time := "" }])
      = some [⟨"a.jpg".data, "x y".data, none, none, [], []⟩]
    ∧ "x y".data ≠ "x\ty".data := by
  constructor
  · decide
  · decide

/-- C7 amended: for rows whose file name, date and time contain no tab or
newline and whose address is left unchanged by the export's sanitisation
(no tab/newline/carriage return, no surrounding whitespace — expressed as
`cleanAddress r.address = r.address.data`), parsing the exported block
recovers file name, address, date and time exactly; each unknown or
zero-sentinel coordinate round-trips to "unknown" (the empty cell), and a
nonzero coordinate round-trips to its hemisphere-signed six-decimal
approximation, which is within `1 / 2000000` of the original value.  The
block's first line is the header row and it has one further line per
entry. -/
theorem export_roundtrip_clean (rows : List ProcessedImage)
    (hclean : ∀ r ∈ rows,
      ('\t' ∉ r.fileName.data ∧ '\n' ∉ r.fileName.data)
      ∧ ('\t' ∉ r.address.data ∧ '\n' ∉ r.address.data
          ∧ cleanAddress r.address = r.address.data)
      ∧ ('\t' ∉ r.date.data ∧ '\n' ∉ r.date.data)
      ∧ ('\t' ∉ r.time.data ∧ '\n' ∉ r.time.data)) :
    parseTsv (handleCopyTsv rows)
      = some (rows.map fun r =>
          (⟨r.fileName.data, r.address.data, roundtripCoord r.latitude,
            roundtripCoord r.longitude, r.date.data, r.time.data⟩ : ParsedRow))
    ∧ splitSep '\n' (handleCopyTsv rows) = headerLine :: rows.map rowLine
    ∧ (splitSep '\n' (handleCopyTsv rows)).length = rows.length + 1
    ∧ (∀ q : ℚ, q ≠ 0 → roundtripCoord (some q)
        = some (if 0 ≤ q then approx6 |q| else -approx6 |q|))
    ∧ (∀ q : ℚ, q ≠ 0 →
        |(if 0 ≤ q then approx6 |q| else -approx6 |q|) - q| ≤ 1 / 2000000)
    ∧ roundtripCoord none = none ∧ roundtripCoord (some 0) = none := by
  have hsplitlines : splitSep '\n' (handleCopyTsv rows)
      = headerLine :: rows.map rowLine := by
    rw [show handleCopyTsv rows = joinSep '\n' (headerLine :: rows.map rowLine) from rfl]
    apply splitSep_joinSep
    · simp
    · intro p hp
      rw [List.mem_cons] at hp
      rcases hp with rfl | hp
      · decide
      · rw [List.mem_map] at hp
        obtain ⟨r, hr, rfl⟩ := hp
        intro hmem
        obtain ⟨⟨_, hfn⟩, ⟨_, had, haddr⟩, ⟨_, hd⟩, ⟨_, ht⟩⟩ := hclean r hr
        exact rowLine_no_nl r hfn had haddr hd ht '\n' hmem rfl
  refine ⟨?_, hsplitlines, ?_, ?_, ?_, rfl, rfl⟩
  · rw [show parseTsv (handleCopyTsv rows)
        = (match splitSep '\n' (handleCopyTsv rows) with
           | [] => none
           | _hdr :: rest => parseAllRows rest) from rfl, hsplitlines]
    exact parseAllRows_map rows fun r hr => by
      obtain ⟨⟨hfn, _⟩, ⟨had, _, haddr⟩, ⟨hd, _⟩, ⟨ht, _⟩⟩ := hclean r hr
      exact parseRowLine_rowLine r hfn had haddr hd ht
  · rw [hsplitlines]
    simp
  · intro q hq
    rw [show roundtripCoord (some q)
        = (if q = 0 then none
           else if 0 ≤ q then some (approx6 |q|) else some (-approx6 |q|)) from rfl,
      if_neg hq]
    by_cases hsgn : 0 ≤ q
    · rw [if_pos hsgn, if_pos hsgn]
    · rw [if_neg hsgn, if_neg hsgn]
  · intro q hq
    by_cases hsgn : 0 ≤ q
    · rw [if_pos hsgn, abs_of_nonneg hsgn]
      exact approx6_close q hsgn
    · push_neg at hsgn
      rw [if_neg (not_le.mpr hsgn), abs_of_neg hsgn,
        show -approx6 (-q) - q = -(approx6 (-q) - -q) from by ring, abs_neg]
      exact approx6_close (-q) (by linarith)

/-- Witness for C7's amended theorem at one concrete row with a positive
latitude and a negative longitude. -/
theorem export_roundtrip_clean_witness :
    parseTsv (handleCopyTsv
        [{ originalFile := ⟨"f", "image/jpeg"⟩, fileName := "a.jpg",
           previewUrl := "p", address := "Jalan Merdeka 5",
           latitude := some (5 / 4), longitude := some (-(1 / 3)),
           date := "2020-01-02", time := "10:30" }])
      = some ([({ originalFile := ⟨"f", "image/jpeg"⟩, fileName := "a.jpg",
                  previewUrl := "p", address := "Jalan Merdeka 5",
                  latitude := some (5 / 4), longitude := some (-(1 / 3)),
                  date := "2020-01-02", time := "10:30" } : ProcessedImage)].map fun r =>
          (⟨r.fileName.data, r.address.data, roundtripCoord r.latitude,
            roundtripCoord r.longitude, r.date.data, r.time.data⟩ : ParsedRow))
    ∧ (splitSep '\n' (handleCopyTsv
        [{ originalFile := ⟨"f", "image/jpeg"⟩, fileName := "a.jpg",
           previewUrl := "p", address := "Jalan Merdeka 5",
           latitude := some (5 / 4), longitude := some (-(1 / 3)),
           date := "2020-01-02", time := "10:30" }])).length = 1 + 1 := by
  have h := export_roundtrip_clean
    [{ originalFile := ⟨"f", "image/jpeg"⟩, fileName := "a.jpg",
       previewUrl := "p", address := "Jalan Merdeka 5",
       latitude := some (5 / 4), longitude := some (-(1 / 3)),
       date := "2020-01-02", time := "10:30" }]
    (by decide)
  exact ⟨h.1, h.2.2.1⟩
